import Mathlib

/-!
# HighPrecisionTimer

A shallow embedding of `src/HighPrecisionTimer.h` (class `HighPrecisionTimer`) together with
the properties of its constructor, `stop`, `getFrequency`, `isRunning` and `timerLoop`.

* `double` values are modelled by `Double`: `nan`, the two infinities and the finite values
  (a rational number); arithmetic on them rounds to nearest, ties to even, with 53 significant
  bits and the exponent range of the binary64 format. The conversion to `long long` of a value
  that does not fit is undefined in C++; the integer it yields is the parameter `oor`.
* `steady_clock` instants and `nanoseconds` durations are signed 64-bit nanosecond counts:
  integers of the range `-2 ^ 63 .. 2 ^ 63 - 1`. A sum that leaves this range wraps around
  (`wrap64`), as the 64-bit addition of the source does.
* The object, its background thread and the callers of `stop` form a transition system: every
  atomic action of the source is one `Event`, and `step` fires one event. Any number of callers
  may be inside `stop`; the clock readings are inputs of the events: 64-bit counts, not
  constrained otherwise.
* Callbacks act on a caller-owned state and end by returning or by throwing; they do not call
  the methods of the timer that owns them.
-/

namespace HighPrecisionTimer

/-! ## The `double` type -/

/-- A value of the C++ type `double`. `fin q` is the finite value `q`; the two zeros are both
`fin 0` (they compare equal, and the constructor rejects both before dividing by them). -/
inductive Double where
  | nan : Double
  | inf (neg : Bool) : Double
  | fin (q : ℚ) : Double
  deriving DecidableEq

/-- Rounding of a rational to the nearest integer, ties to the even neighbour. -/
def roundHalfEven (x : ℚ) : ℤ :=
  let n : ℤ := ⌊x⌋
  let r : ℚ := x - n
  if r < 1 / 2 then n
  else if 1 / 2 < r then n + 1
  else if n % 2 = 0 then n else n + 1

/-- The binary exponent under which `x` is rounded: `⌊log₂ |x|⌋`, but never below the exponent
of the subnormal range. -/
def binade (x : ℚ) : ℤ := max (Int.log 2 |x|) (-1022)

/-- The spacing of the `double` values around `x` (53 significant bits). -/
def ulp (x : ℚ) : ℚ := (2 : ℚ) ^ (binade x - 52)

/-- The `double` nearest to the rational `x` (round to nearest, ties to even); values that
round to `2 ^ 1024` or beyond overflow to an infinity. -/
def roundToDouble (x : ℚ) : Double :=
  let r : ℚ := (roundHalfEven (x / ulp x) : ℚ) * ulp x
  if (2 : ℚ) ^ (1024 : ℕ) ≤ |r| then Double.inf (decide (x < 0)) else Double.fin r

/-- The finite `double` values: the rationals that rounding leaves unchanged. -/
def Double.representable : Double → Prop
  | Double.fin q => roundToDouble q = Double.fin q
  | _ => True

/-- The comparison `a <= b` of two `double` values; false whenever one of them is `nan`. -/
def Double.le : Double → Double → Bool
  | Double.nan, _ => false
  | _, Double.nan => false
  | Double.inf true, _ => true
  | _, Double.inf false => true
  | Double.inf false, _ => false
  | _, Double.inf true => false
  | Double.fin a, Double.fin b => decide (a ≤ b)

/-- The comparison `a < b` of two `double` values; false whenever one of them is `nan`. -/
def Double.lt : Double → Double → Bool
  | Double.nan, _ => false
  | _, Double.nan => false
  | Double.inf true, Double.inf true => false
  | Double.inf true, _ => true
  | Double.inf false, _ => false
  | _, Double.inf false => true
  | _, Double.inf true => false
  | Double.fin a, Double.fin b => decide (a < b)

/-- The quotient `a / b` of two `double` values. A zero divisor is the positive zero. -/
def Double.div : Double → Double → Double
  | Double.nan, _ => Double.nan
  | _, Double.nan => Double.nan
  | Double.inf _, Double.inf _ => Double.nan
  | Double.inf s, Double.fin b => Double.inf (xor s (decide (b < 0)))
  | Double.fin _, Double.inf _ => Double.fin 0
  | Double.fin a, Double.fin b =>
    if b = 0 then (if a = 0 then Double.nan else Double.inf (decide (a < 0)))
    else roundToDouble (a / b)

/-- Truncation of a rational toward zero. -/
def truncate (q : ℚ) : ℤ := if 0 ≤ q then ⌊q⌋ else ⌈q⌉

/-- The conversion `static_cast<long long>(d)`: the value truncated toward zero when that fits
in 64 bits. For every other operand (out of range, infinite, `nan`) the language leaves the
result undefined; `oor` is the integer the platform then produces. -/
def Double.toLongLong (oor : ℤ) : Double → ℤ
  | Double.fin q =>
    if -(2 : ℤ) ^ (63 : ℕ) ≤ truncate q ∧ truncate q < (2 : ℤ) ^ (63 : ℕ) then truncate q else oor
  | _ => oor

/-- The literal `0.0`. -/
def Double.zero : Double := Double.fin 0

/-- The literal `1e9`. -/
def Double.e9 : Double := Double.fin 1000000000

/-! ## The object -/

/-- How one call of the callback ends. -/
inductive Outcome where
  | returned : Outcome
  | threw : Outcome
  deriving DecidableEq

/-- A `std::function<void()>` acting on caller-owned state `σ`: `none` is the empty function,
`some a` a target that transforms the caller's state and either returns or throws. -/
abbrev Callback (σ : Type) := Option (σ → σ × Outcome)

/-- The exceptions of the constructor. -/
inductive Exn where
  | invalid_argument (what : String) : Exn
  deriving DecidableEq

/-- The member `timer_thread_` together with the position of the thread it owns inside
`timerLoop`; the local `next_wakeup` lives in the positions inside the loop. -/
inductive Thread where
  /-- default-constructed `std::thread`: owns no thread, not joinable -/
  | notAThread : Thread
  /-- started, `timerLoop` not yet past line 83 -/
  | entry : Thread
  /-- in front of the loop condition, line 86 -/
  | test (next_wakeup : ℤ) : Thread
  /-- the condition held; in front of line 88 -/
  | body (next_wakeup : ℤ) : Thread
  /-- returned from `timerLoop`; the thread has not been joined -/
  | finished : Thread
  /-- an uncaught exception left `timerLoop` -/
  | terminated : Thread
  /-- joined: `join()` has completed, not joinable any more -/
  | joined : Thread
  deriving DecidableEq

/-- The result of `timer_thread_.joinable()`. -/
def Thread.joinable : Thread → Bool
  | Thread.notAThread => false
  | Thread.joined => false
  | _ => true

/-- The members after the member-initialiser list (lines 19-21); `period_ns_` has no value
yet. This is the state in which the constructor throws. -/
structure Members (σ : Type) where
  frequency_hz_ : Double
  callback_ : Callback σ
  running_ : Bool
  timer_thread_ : Thread

/-- A constructed timer with its surroundings. `world` is the caller-owned state the callback
acts on; `joiners` counts the callers currently blocked inside `join()`; `invocations` and
`joins` count the completed callback calls and the completed `join()` calls. -/
structure Timer (σ : Type) where
  frequency_hz_ : Double
  period_ns_ : ℤ
  callback_ : Callback σ
  running_ : Bool
  timer_thread_ : Thread
  world : σ
  joiners : ℕ
  invocations : ℕ
  joins : ℕ

/-- The member-initialiser list, lines 19-21. -/
def memInit {σ : Type} (frequency_hz : Double) (callback : Callback σ) : Members σ :=
  { frequency_hz_ := frequency_hz, callback_ := callback, running_ := false,
    timer_thread_ := Thread.notAThread }

/-- Line 32: `static_cast<long long>(1e9 / frequency_hz_)`. -/
def periodOf (oor : ℤ) (frequency_hz : Double) : ℤ :=
  Double.toLongLong oor (Double.div Double.e9 frequency_hz)

/-- The constructor, lines 18-37. It either throws, leaving the members as initialised, or
yields the object with the flag set and the thread started. -/
def construct {σ : Type} (oor : ℤ) (world : σ) (frequency_hz : Double) (callback : Callback σ) :
    Except (Exn × Members σ) (Timer σ) :=
  let m := memInit frequency_hz callback
  if Double.le m.frequency_hz_ Double.zero then
    Except.error (Exn.invalid_argument "Frequency must be positive", m)
  else if m.callback_.isNone then
    Except.error (Exn.invalid_argument "Callback function cannot be null", m)
  else
    Except.ok
      { frequency_hz_ := m.frequency_hz_
        period_ns_ := periodOf oor m.frequency_hz_
        callback_ := m.callback_
        running_ := true
        timer_thread_ := Thread.entry
        world := world
        joiners := 0
        invocations := 0
        joins := 0 }

/-- The method `getFrequency`, lines 68-70. -/
def getFrequency {σ : Type} (t : Timer σ) : Double := t.frequency_hz_

/-- The method `isRunning`, lines 75-77. -/
def isRunning {σ : Type} (t : Timer σ) : Bool := t.running_

/-! ## The scheduling loop and `stop` as a transition system -/

/-- The atomic actions of the background thread and of the callers. -/
inductive Event where
  /-- lines 83-84: the thread reads the clock (`now`) into `next_wakeup` -/
  | enter (now : ℤ) : Event
  /-- line 86: the thread evaluates `while (running_)` -/
  | check : Event
  /-- lines 88-106: one pass through the loop body; `now` is the reading of line 103 -/
  | iterate (now : ℤ) : Event
  /-- line 58: a caller of `stop` executes `running_.exchange(false)` -/
  | stopExchange : Event
  /-- lines 59-61: the `join()` of a caller blocked in `stop` completes -/
  | stopJoin : Event
  /-- a caller reads `isRunning()` -/
  | readRunning : Event
  /-- a caller reads `getFrequency()` -/
  | readFrequency : Event
  deriving DecidableEq

/-- Whether an integer is a signed 64-bit count. -/
def inRange64 (x : ℤ) : Bool :=
  decide (-9223372036854775808 ≤ x) && decide (x < 9223372036854775808)

/-- The signed 64-bit count congruent to `x` modulo `2 ^ 64`: what a 64-bit sum yields. -/
def wrap64 (x : ℤ) : ℤ :=
  (x + 9223372036854775808) % 18446744073709551616 - 9223372036854775808

/-- Line 88: `next_wakeup += period`, a 64-bit sum. -/
def advance (period next_wakeup : ℤ) : ℤ := wrap64 (next_wakeup + period)

/-- Line 104: the test `now > next_wakeup + period`, the sum being a 64-bit sum. -/
def overrun (period next_wakeup now : ℤ) : Bool :=
  decide (now > wrap64 (next_wakeup + period))

/-- Line 92: the call `callback_()`. Calling the empty function throws
`std::bad_function_call` and leaves the caller's state alone. -/
def invoke {σ : Type} (callback : Callback σ) (w : σ) : σ × Outcome :=
  match callback with
  | none => (w, Outcome.threw)
  | some a => a w

/-- Lines 91-96: `try { callback_(); } catch (...) { }`. The second component tells whether an
exception leaves the statement. -/
def guardedCall {σ : Type} (callback : Callback σ) (w : σ) : σ × Bool :=
  match invoke callback w with
  | (w1, Outcome.returned) => (w1, false)
  | (w1, Outcome.threw) => (w1, false)

/-- Lines 103-106: `if (now > next_wakeup + period) next_wakeup = now;`. -/
def resync (period next_wakeup now : ℤ) : ℤ :=
  if overrun period next_wakeup now then now else next_wakeup

/-- Lines 88-106 on the local `next_wakeup`: advance, (call, sleep,) read `now`, resynchronise. -/
def iteration (period next_wakeup now : ℤ) : ℤ :=
  resync period (advance period next_wakeup) now

/-- The instant handed to `sleep_until` (line 100) by the pass about to start, if the thread
stands in front of a pass. -/
def sleepTarget {σ : Type} (t : Timer σ) : Option ℤ :=
  match t.timer_thread_ with
  | Thread.body next_wakeup => some (advance t.period_ns_ next_wakeup)
  | _ => none

/-- The method `timerLoop`, lines 80-108, one atomic action of the thread at a time; `none`
when the thread is not at the position of the action, and for the events of the callers. -/
def timerLoop {σ : Type} (t : Timer σ) : Event → Option (Timer σ)
  | Event.enter now =>
    match t.timer_thread_ with
    | Thread.entry => some { t with timer_thread_ := Thread.test now }
    | _ => none
  | Event.check =>
    match t.timer_thread_ with
    | Thread.test next_wakeup =>
      if t.running_ then some { t with timer_thread_ := Thread.body next_wakeup }
      else some { t with timer_thread_ := Thread.finished }
    | _ => none
  | Event.iterate now =>
    match t.timer_thread_ with
    | Thread.body next_wakeup =>
      let next_wakeup1 := advance t.period_ns_ next_wakeup
      let r := guardedCall t.callback_ t.world
      let count := if t.callback_.isSome then t.invocations + 1 else t.invocations
      if r.2 then
        some { t with world := r.1, invocations := count, timer_thread_ := Thread.terminated }
      else
        some { t with world := r.1, invocations := count,
                      timer_thread_ := Thread.test (resync t.period_ns_ next_wakeup1 now) }
    | _ => none
  | _ => none

/-- One atomic action of the system: an action of the thread inside `timerLoop`, the exchange
of line 58 by a caller of `stop`, the completion of the `join()` of lines 59-61 (possible once
the thread has finished and a caller waits for it), or a read. `none` when the action cannot
happen in this state. -/
def step {σ : Type} (t : Timer σ) : Event → Option (Timer σ)
  | Event.stopExchange =>
    if t.running_ then
      if t.timer_thread_.joinable then some { t with running_ := false, joiners := t.joiners + 1 }
      else some { t with running_ := false }
    else some { t with running_ := false }
  | Event.stopJoin =>
    if 0 < t.joiners ∧ t.timer_thread_ = Thread.finished then
      some { t with timer_thread_ := Thread.joined, joiners := t.joiners - 1,
                    joins := t.joins + 1 }
    else none
  | Event.readRunning => some t
  | Event.readFrequency => some t
  | e => timerLoop t e

/-- Whether the event `e`, fired in state `t`, is the last action of a call of `stop`, that
is, whether a call of `stop` returns with it. -/
def stopReturns {σ : Type} (t : Timer σ) : Event → Bool
  | Event.stopExchange => !(t.running_ && t.timer_thread_.joinable)
  | Event.stopJoin => decide (0 < t.joiners ∧ t.timer_thread_ = Thread.finished)
  | _ => false

/-- An execution: the events fired one after the other. -/
def run {σ : Type} (t : Timer σ) : List Event → Option (Timer σ)
  | [] => some t
  | e :: es => (step t e).bind (fun t1 => run t1 es)

/-- What the background thread still does once the flag is false, from each position; `now`
is the clock reading it takes on the way. -/
def loopRest (now : ℤ) : Thread → List Event
  | Thread.entry => [Event.enter now, Event.check]
  | Thread.test _ => [Event.check]
  | Thread.body _ => [Event.iterate now, Event.check]
  | _ => []

/-- The events of one call of `stop` (lines 57-63) whose caller is the only one: the exchange
and, when it returned true and the thread is joinable, the rest of the loop and the join. -/
def stopEvents {σ : Type} (now : ℤ) (t : Timer σ) : List Event :=
  if t.running_ && t.timer_thread_.joinable then
    Event.stopExchange :: (loopRest now t.timer_thread_ ++ [Event.stopJoin])
  else [Event.stopExchange]

/-- The method `stop`, lines 57-63, from call to return. -/
def stop {σ : Type} (now : ℤ) (t : Timer σ) : Option (Timer σ) := run t (stopEvents now t)

/-- The destructor, lines 42-44. -/
def destructor {σ : Type} (now : ℤ) (t : Timer σ) : Option (Timer σ) := stop now t

/-- The storage of an object whose constructor threw: the members as the throw left them,
`period_ns_` holding the arbitrary value `garbage`. -/
def Members.storage {σ : Type} (m : Members σ) (garbage : ℤ) (world : σ) : Timer σ :=
  { frequency_hz_ := m.frequency_hz_, period_ns_ := garbage, callback_ := m.callback_,
    running_ := m.running_, timer_thread_ := m.timer_thread_, world := world,
    joiners := 0, invocations := 0, joins := 0 }

/-- A callback that counts its calls in the caller's state and returns. -/
def tick : ℕ → ℕ × Outcome := fun n => (n + 1, Outcome.returned)

/-- A callback that counts its calls in the caller's state and throws. -/
def faulty : ℕ → ℕ × Outcome := fun n => (n + 1, Outcome.threw)

/-- The positions of the thread inside `timerLoop`, before its return. -/
def Thread.inLoop : Thread → Bool
  | Thread.entry => true
  | Thread.test _ => true
  | Thread.body _ => true
  | _ => false

/-- The three shapes of a state reached from a constructed timer: running; flag cleared with
one caller waiting for the thread; stopped and joined. -/
def Inv {σ : Type} (t : Timer σ) : Prop :=
  (t.running_ = true ∧ t.timer_thread_.inLoop = true ∧ t.joiners = 0 ∧ t.joins = 0) ∨
  (t.running_ = false ∧ (t.timer_thread_.inLoop = true ∨ t.timer_thread_ = Thread.finished) ∧
    t.joiners = 1 ∧ t.joins = 0) ∨
  (t.running_ = false ∧ t.timer_thread_ = Thread.joined ∧ t.joiners = 0 ∧ t.joins = 1)

/-- Successive calls of `stop` by one caller, one clock reading for each. -/
def stopSeq {σ : Type} (t : Timer σ) : List ℤ → Option (Timer σ)
  | [] => some t
  | now :: nows => (stop now t).bind (fun t1 => stopSeq t1 nows)

/-- The state without the callback and the caller's state it acts on: the configuration, the
flag, the thread with its `next_wakeup`, and the counters. -/
def schedule {σ : Type} (t : Timer σ) : Double × ℤ × Bool × Thread × ℕ × ℕ × ℕ :=
  (t.frequency_hz_, t.period_ns_, t.running_, t.timer_thread_, t.joiners, t.invocations, t.joins)

/-- The events of successive loop passes, each the test of line 86 followed by the body;
`nows` are the clock readings of line 103. -/
def rounds : List ℤ → List Event
  | [] => []
  | now :: nows => Event.check :: Event.iterate now :: rounds nows

/-- Whether none of the passes with the readings `nows`, the first one starting from
`next_wakeup`, takes the branch of line 105. -/
def noResync (period : ℤ) : ℤ → List ℤ → Bool
  | _, [] => true
  | next_wakeup, now :: nows =>
    !overrun period (advance period next_wakeup) now &&
      noResync period (advance period next_wakeup) nows

/-- Whether the clock readings `nows` of successive passes without resynchronisation, the
first one starting from `next_wakeup`, are those of a steady clock read after `sleep_until`:
each reading is not earlier than the reading before it (`prev` for the first) and not earlier
than the sleep target of its pass. -/
def noEarlyWakeup (period : ℤ) : ℤ → ℤ → List ℤ → Bool
  | _, _, [] => true
  | prev, next_wakeup, now :: nows =>
    decide (prev ≤ now) && decide (advance period next_wakeup ≤ now) &&
      noEarlyWakeup period now (advance period next_wakeup) nows

/-- The instants handed to `sleep_until` along an execution, in order: one for each pass of
the loop body that the execution contains. -/
def sleepTargets {σ : Type} (t : Timer σ) : List Event → List ℤ
  | [] => []
  | e :: es =>
    (match e with
      | Event.iterate _ => (sleepTarget t).toList
      | _ => []) ++
    (match step t e with
      | some t1 => sleepTargets t1 es
      | none => [])

/-- A timer of 10 Hz as the constructor leaves it, with the callback `tick`. -/
def tenHz : Timer ℕ :=
  { frequency_hz_ := Double.fin 10, period_ns_ := 100000000, callback_ := some tick,
    running_ := true, timer_thread_ := Thread.entry, world := 0, joiners := 0,
    invocations := 0, joins := 0 }

/-- A timer of 10 Hz as the constructor leaves it, with the callback `faulty`. -/
def tenHzFaulty : Timer ℕ :=
  { frequency_hz_ := Double.fin 10, period_ns_ := 100000000, callback_ := some faulty,
    running_ := true, timer_thread_ := Thread.entry, world := 0, joiners := 0,
    invocations := 0, joins := 0 }

/-- The 10 Hz timer in front of its second pass, after one call of `tick`. -/
def tenHzSecondPass : Timer ℕ :=
  { frequency_hz_ := Double.fin 10, period_ns_ := 100000000, callback_ := some tick,
    running_ := true, timer_thread_ := Thread.body 100000000, world := 1, joiners := 0,
    invocations := 1, joins := 0 }

/-- The 10 Hz timer after a call of `stop` that came in front of its second pass. -/
def tenHzStopped : Timer ℕ :=
  { frequency_hz_ := Double.fin 10, period_ns_ := 100000000, callback_ := some tick,
    running_ := false, timer_thread_ := Thread.joined, world := 2, joiners := 0,
    invocations := 2, joins := 1 }

/-- The 10 Hz timer while a caller of `stop` waits in `join()` and the thread has finished. -/
def tenHzStopping : Timer ℕ :=
  { frequency_hz_ := Double.fin 10, period_ns_ := 100000000, callback_ := some tick,
    running_ := false, timer_thread_ := Thread.finished, world := 2, joiners := 1,
    invocations := 2, joins := 0 }

/-- A timer of `2 ^ -33` Hz as the constructor leaves it, with the callback `tick`: its period
is `1e9 * 2 ^ 33` ns. -/
def slowTimer : Timer ℕ :=
  { frequency_hz_ := Double.fin (1 / 8589934592), period_ns_ := 8589934592000000000,
    callback_ := some tick, running_ := true, timer_thread_ := Thread.entry, world := 0,
    joiners := 0, invocations := 0, joins := 0 }

/-- A timer whose period is the largest one below `2 ^ 63` ns that a `double` quotient yields,
`2 ^ 63 - 1024` ns, as the constructor leaves it. -/
def longestTimer : Timer ℕ :=
  { frequency_hz_ := Double.fin (8388608000000001 / 77371252455336267181195264),
    period_ns_ := 9223372036854774784, callback_ := some tick, running_ := true,
    timer_thread_ := Thread.entry, world := 0, joiners := 0, invocations := 0, joins := 0 }

/-! ## Rounding -/

theorem le_roundHalfEven (k : ℤ) (x : ℚ) (h : (k : ℚ) ≤ x) : k ≤ roundHalfEven x := by
  have hf : k ≤ ⌊x⌋ := Int.le_floor.mpr h
  unfold roundHalfEven
  simp only
  split_ifs <;> omega

theorem roundHalfEven_le (k : ℤ) (x : ℚ) (h : x ≤ (k : ℚ)) : roundHalfEven x ≤ k := by
  unfold roundHalfEven
  simp only
  rcases eq_or_lt_of_le h with hx | hx
  · subst hx
    simp
  · have hf : ⌊x⌋ < k := Int.floor_lt.mpr hx
    split_ifs <;> omega

theorem roundHalfEven_intCast (k : ℤ) : roundHalfEven (k : ℚ) = k :=
  le_antisymm (roundHalfEven_le k _ le_rfl) (le_roundHalfEven k _ le_rfl)

theorem log_two_eq (x : ℚ) (e : ℤ) (h1 : (2 : ℚ) ^ e ≤ x) (h2 : x < (2 : ℚ) ^ (e + 1)) :
    Int.log 2 x = e := by
  have hx : 0 < x := lt_of_lt_of_le (zpow_pos (by norm_num) e) h1
  have a1 : e ≤ Int.log 2 x := by
    rw [← Int.zpow_le_iff_le_log (by norm_num) hx]
    simpa using h1
  have a2 : Int.log 2 x < e + 1 := by
    rw [← Int.lt_zpow_iff_log_lt (by norm_num) hx]
    simpa using h2
  omega

/-- Rounding a rational that lies in the binade `e ≥ -1022` and is a multiple `k` of the
spacing there yields that rational. -/
theorem roundToDouble_exact (x : ℚ) (e k : ℤ) (he : -1022 ≤ e) (h1 : (2 : ℚ) ^ e ≤ x)
    (h2 : x < (2 : ℚ) ^ (e + 1)) (hk : x = (k : ℚ) * (2 : ℚ) ^ (e - 52))
    (hmax : x < (2 : ℚ) ^ (1024 : ℕ)) : roundToDouble x = Double.fin x := by
  have hx : 0 < x := lt_of_lt_of_le (zpow_pos (by norm_num) e) h1
  have hb : binade x = e := by
    unfold binade
    rw [abs_of_pos hx, log_two_eq x e h1 h2]
    exact max_eq_left he
  have hu : (0 : ℚ) < (2 : ℚ) ^ (e - 52) := zpow_pos (by norm_num) _
  have hq : x / ulp x = (k : ℚ) := by
    unfold ulp
    rw [hb, hk]
    field_simp
  unfold roundToDouble
  simp only [hq, roundHalfEven_intCast]
  have hr : (k : ℚ) * ulp x = x := by
    unfold ulp
    rw [hb, ← hk]
  rw [hr, abs_of_pos hx, if_neg (not_le.mpr hmax)]

/-- Rounding keeps a rational of the interval `[1, 2 ^ 63 - 1024]` finite and inside that
interval: both ends are `double` values. -/
theorem roundToDouble_bounds (x : ℚ) (h1 : 1 ≤ x) (h2 : x ≤ (2 : ℚ) ^ (63 : ℕ) - 1024) :
    ∃ r : ℚ, roundToDouble x = Double.fin r ∧ 1 ≤ r ∧ r ≤ (2 : ℚ) ^ (63 : ℕ) - 1024 := by
  unfold roundToDouble
  simp only
  have hx : 0 < x := lt_of_lt_of_le one_pos h1
  have hlo : (0 : ℤ) ≤ Int.log 2 x := by
    rw [← Int.zpow_le_iff_le_log (by norm_num) hx]
    simpa using h1
  have hhi : Int.log 2 x < 63 := by
    rw [← Int.lt_zpow_iff_log_lt (by norm_num) hx]
    have : x < (2 : ℚ) ^ (63 : ℤ) := by
      rw [show ((63 : ℤ)) = ((63 : ℕ) : ℤ) by norm_num, zpow_natCast]
      linarith
    simpa using this
  have hb : binade x = Int.log 2 x := by
    unfold binade
    rw [abs_of_pos hx]
    exact max_eq_left (by omega)
  generalize he : Int.log 2 x = e at hlo hhi hb
  have l1 : (2 : ℚ) ^ e ≤ x := by
    have := Int.zpow_log_le_self (b := 2) (by norm_num) hx
    rw [he] at this
    simpa using this
  have l2 : x < (2 : ℚ) ^ (e + 1) := by
    have := Int.lt_zpow_succ_log_self (b := 2) (by norm_num) x
    rw [he] at this
    simpa using this
  have hu : (0 : ℚ) < (2 : ℚ) ^ (e - 52) := zpow_pos (by norm_num) _
  have e1 : (2 : ℚ) ^ e = (2 : ℚ) ^ (52 : ℕ) * (2 : ℚ) ^ (e - 52) := by
    rw [← zpow_natCast, ← zpow_add₀ (by norm_num)]
    congr 1
    push_cast
    ring
  have e2 : (2 : ℚ) ^ (e + 1) = (2 : ℚ) ^ (53 : ℕ) * (2 : ℚ) ^ (e - 52) := by
    rw [← zpow_natCast, ← zpow_add₀ (by norm_num)]
    congr 1
    push_cast
    ring
  have hulp : ulp x = (2 : ℚ) ^ (e - 52) := by
    unfold ulp
    rw [hb]
  have q1 : (2 : ℚ) ^ (52 : ℕ) ≤ x / ulp x := by
    rw [hulp, le_div_iff₀ hu, ← e1]
    exact l1
  have q2 : x / ulp x ≤ (2 : ℚ) ^ (53 : ℕ) := by
    rw [hulp, div_le_iff₀ hu, ← e2]
    exact l2.le
  have q3 : e = 62 → x / ulp x ≤ (2 : ℚ) ^ (53 : ℕ) - 1 := by
    intro h62
    have hu10 : (2 : ℚ) ^ (e - 52) = 1024 := by
      rw [h62]
      norm_num
    rw [hulp, hu10, div_le_iff₀ (by norm_num)]
    calc x ≤ (2 : ℚ) ^ (63 : ℕ) - 1024 := h2
      _ = ((2 : ℚ) ^ (53 : ℕ) - 1) * 1024 := by norm_num
  have hu0 : 0 < ulp x := by
    rw [hulp]
    exact hu
  generalize ulp x = u at hulp q1 q2 q3 hu0
  -- the significand is at least `2 ^ 52`
  have m1 : ((2 : ℤ) ^ (52 : ℕ)) ≤ roundHalfEven (x / u) :=
    le_roundHalfEven _ _ (by exact_mod_cast q1)
  have m2 : roundHalfEven (x / u) ≤ (2 : ℤ) ^ (53 : ℕ) :=
    roundHalfEven_le _ _ (by exact_mod_cast q2)
  have m3 : e = 62 → roundHalfEven (x / u) ≤ (2 : ℤ) ^ (53 : ℕ) - 1 := fun h62 =>
    roundHalfEven_le _ _ (by exact_mod_cast q3 h62)
  generalize roundHalfEven (x / u) = m at m1 m2 m3
  have m1q : (2 : ℚ) ^ (52 : ℕ) ≤ (m : ℚ) := by exact_mod_cast m1
  have m2q : (m : ℚ) ≤ (2 : ℚ) ^ (53 : ℕ) := by exact_mod_cast m2
  have r1 : 1 ≤ (m : ℚ) * u := by
    calc (1 : ℚ) ≤ (2 : ℚ) ^ e := by
          have := zpow_le_zpow_right₀ (a := (2 : ℚ)) (by norm_num) hlo
          simpa using this
      _ = (2 : ℚ) ^ (52 : ℕ) * (2 : ℚ) ^ (e - 52) := e1
      _ ≤ (m : ℚ) * u := by
          rw [hulp]
          exact mul_le_mul_of_nonneg_right m1q hu.le
  -- and the rounded value does not exceed `2 ^ 63 - 1024`
  have r2 : (m : ℚ) * u ≤ (2 : ℚ) ^ (63 : ℕ) - 1024 := by
    rcases (show e ≤ 61 ∨ e = 62 by omega) with h61 | h62
    · calc (m : ℚ) * u ≤ (2 : ℚ) ^ (53 : ℕ) * (2 : ℚ) ^ (e - 52) := by
            rw [hulp]
            exact mul_le_mul_of_nonneg_right m2q hu.le
        _ = (2 : ℚ) ^ (e + 1) := e2.symm
        _ ≤ (2 : ℚ) ^ (62 : ℤ) := zpow_le_zpow_right₀ (by norm_num) (by omega)
        _ ≤ (2 : ℚ) ^ (63 : ℕ) - 1024 := by norm_num
    · have m3q : (m : ℚ) ≤ (2 : ℚ) ^ (53 : ℕ) - 1 := by exact_mod_cast m3 h62
      have hu10 : u = 1024 := by
        rw [hulp, h62]
        norm_num
      rw [hu10]
      calc (m : ℚ) * 1024 ≤ ((2 : ℚ) ^ (53 : ℕ) - 1) * 1024 :=
            mul_le_mul_of_nonneg_right m3q (by norm_num)
        _ = (2 : ℚ) ^ (63 : ℕ) - 1024 := by norm_num
  refine ⟨(m : ℚ) * u, ?_, r1, r2⟩
  rw [if_neg]
  rw [not_le, abs_of_pos (lt_of_lt_of_le one_pos r1)]
  calc (m : ℚ) * u ≤ (2 : ℚ) ^ (63 : ℕ) - 1024 := r2
    _ < (2 : ℚ) ^ (1024 : ℕ) := by norm_num

/-! ## The period -/

theorem truncate_of_nonneg (q : ℚ) (h : 0 ≤ q) : truncate q = ⌊q⌋ := by
  unfold truncate
  rw [if_pos h]

/-- The conversion of a finite non-negative `double` below `2 ^ 63` is its integer part. -/
theorem toLongLong_of_nonneg (oor : ℤ) (q : ℚ) (h : 0 ≤ q) (h2 : ⌊q⌋ < (2 : ℤ) ^ (63 : ℕ)) :
    Double.toLongLong oor (Double.fin q) = ⌊q⌋ := by
  have h0 : (0 : ℤ) ≤ ⌊q⌋ := Int.floor_nonneg.mpr h
  have t3 : -(2 : ℤ) ^ (63 : ℕ) ≤ ⌊q⌋ ∧ ⌊q⌋ < (2 : ℤ) ^ (63 : ℕ) := by
    constructor
    · have : -(2 : ℤ) ^ (63 : ℕ) ≤ 0 := by norm_num
      omega
    · exact h2
  show (if -(2 : ℤ) ^ (63 : ℕ) ≤ truncate q ∧ truncate q < (2 : ℤ) ^ (63 : ℕ) then truncate q
    else oor) = ⌊q⌋
  rw [truncate_of_nonneg q h, if_pos t3]

/-- The quotient `1e9 / f` for a finite non-zero `f`. -/
theorem div_e9_fin (q : ℚ) (hq : q ≠ 0) :
    Double.div Double.e9 (Double.fin q) = roundToDouble (1000000000 / q) := by
  simp [Double.div, Double.e9, hq]

/-- The period of a frequency between `1e9 / (2 ^ 63 - 1024)` Hz and `1e9` Hz lies between one
nanosecond and `2 ^ 63 - 1024` nanoseconds, whatever the platform does out of range. -/
theorem periodOf_bounds (oor : ℤ) (q : ℚ) (hlo : 1000000000 / ((2 : ℚ) ^ (63 : ℕ) - 1024) ≤ q)
    (hhi : q ≤ 1000000000) :
    1 ≤ periodOf oor (Double.fin q) ∧ periodOf oor (Double.fin q) ≤ (2 : ℤ) ^ (63 : ℕ) - 1024 := by
  have hB : (0 : ℚ) < (2 : ℚ) ^ (63 : ℕ) - 1024 := by norm_num
  have hq : 0 < q := lt_of_lt_of_le (div_pos (by norm_num) hB) hlo
  have x1 : (1 : ℚ) ≤ 1000000000 / q := by
    rw [le_div_iff₀ hq]
    linarith
  have x2 : 1000000000 / q ≤ (2 : ℚ) ^ (63 : ℕ) - 1024 := by
    rw [div_le_iff₀ hq]
    rw [div_le_iff₀ hB] at hlo
    linarith
  obtain ⟨r, hr, r1, r2⟩ := roundToDouble_bounds _ x1 x2
  have t1 : (1 : ℤ) ≤ ⌊r⌋ := Int.le_floor.mpr (by exact_mod_cast r1)
  have t2 : ⌊r⌋ ≤ (2 : ℤ) ^ (63 : ℕ) - 1024 := by
    have h3 : ((⌊r⌋ : ℤ) : ℚ) ≤ (2 : ℚ) ^ (63 : ℕ) - 1024 := le_trans (Int.floor_le r) r2
    exact_mod_cast h3
  have t3 : ⌊r⌋ < (2 : ℤ) ^ (63 : ℕ) := by
    have : (2 : ℤ) ^ (63 : ℕ) - 1024 < (2 : ℤ) ^ (63 : ℕ) := by norm_num
    omega
  unfold periodOf
  rw [div_e9_fin q hq.ne.symm, hr, toLongLong_of_nonneg oor r (by linarith) t3]
  exact ⟨t1, t2⟩

/-- At 10 Hz the period is 100000000 ns. -/
theorem periodOf_ten (oor : ℤ) : periodOf oor (Double.fin 10) = 100000000 := by
  have h : roundToDouble (1000000000 / 10) = Double.fin (1000000000 / 10) :=
    roundToDouble_exact _ 26 (100000000 * 2 ^ (26 : ℕ)) (by norm_num) (by norm_num)
      (by norm_num) (by norm_num) (by norm_num)
  unfold periodOf
  rw [div_e9_fin 10 (by norm_num), h,
    toLongLong_of_nonneg oor _ (by norm_num) (by norm_num)]
  norm_num

/-- At 1000 Hz the period is 1000000 ns. -/
theorem periodOf_thousand (oor : ℤ) : periodOf oor (Double.fin 1000) = 1000000 := by
  have h : roundToDouble (1000000000 / 1000) = Double.fin (1000000000 / 1000) :=
    roundToDouble_exact _ 19 (1000000 * 2 ^ (33 : ℕ)) (by norm_num) (by norm_num)
      (by norm_num) (by norm_num) (by norm_num)
  unfold periodOf
  rw [div_e9_fin 1000 (by norm_num), h,
    toLongLong_of_nonneg oor _ (by norm_num) (by norm_num)]
  norm_num

/-- At 2e9 Hz the quotient is one half, and the period is 0 ns. -/
theorem periodOf_two_e9 (oor : ℤ) : periodOf oor (Double.fin 2000000000) = 0 := by
  have h : roundToDouble (1000000000 / 2000000000) = Double.fin (1000000000 / 2000000000) :=
    roundToDouble_exact _ (-1) (2 ^ (52 : ℕ)) (by norm_num) (by norm_num)
      (by norm_num) (by norm_num) (by norm_num)
  unfold periodOf
  rw [div_e9_fin 2000000000 (by norm_num), h,
    toLongLong_of_nonneg oor _ (by norm_num) (by norm_num)]
  norm_num

/-- At `2 ^ -34` Hz the quotient `1e9 * 2 ^ 34` exceeds the range of `long long`: the period
is whatever the platform makes of the conversion. -/
theorem periodOf_out_of_range (oor : ℤ) :
    periodOf oor (Double.fin (1 / (2 : ℚ) ^ (34 : ℕ))) = oor := by
  have h : roundToDouble (1000000000 / (1 / (2 : ℚ) ^ (34 : ℕ))) =
      Double.fin (1000000000 / (1 / (2 : ℚ) ^ (34 : ℕ))) :=
    roundToDouble_exact _ 63 (1953125 * 2 ^ (32 : ℕ)) (by norm_num) (by norm_num)
      (by norm_num) (by norm_num) (by norm_num)
  unfold periodOf
  rw [div_e9_fin _ (by norm_num), h]
  have ht : truncate (1000000000 / (1 / (2 : ℚ) ^ (34 : ℕ))) = 17179869184000000000 := by
    rw [truncate_of_nonneg _ (by norm_num)]
    norm_num
  show (if -(2 : ℤ) ^ (63 : ℕ) ≤ truncate (1000000000 / (1 / (2 : ℚ) ^ (34 : ℕ))) ∧
      truncate (1000000000 / (1 / (2 : ℚ) ^ (34 : ℕ))) < (2 : ℤ) ^ (63 : ℕ)
    then truncate (1000000000 / (1 / (2 : ℚ) ^ (34 : ℕ))) else oor) = oor
  rw [ht, if_neg (by norm_num)]

/-- The value 2e9 is a `double`. -/
theorem representable_two_e9 : Double.representable (Double.fin 2000000000) :=
  roundToDouble_exact _ 30 (2000000000 * 2 ^ (22 : ℕ)) (by norm_num) (by norm_num)
    (by norm_num) (by norm_num) (by norm_num)

/-- The value 10 is a `double`. -/
theorem representable_ten : Double.representable (Double.fin 10) :=
  roundToDouble_exact _ 3 (10 * 2 ^ (49 : ℕ)) (by norm_num) (by norm_num)
    (by norm_num) (by norm_num) (by norm_num)

/-! ## Frame properties of the transition system -/

variable {σ : Type}

/-- The `try`/`catch (...)` statement lets no exception out. -/
theorem guardedCall_snd (callback : Callback σ) (w : σ) : (guardedCall callback w).2 = false := by
  unfold guardedCall
  split <;> rfl

/-- No event writes `frequency_hz_`, `period_ns_` or `callback_`. -/
theorem step_frame (t t1 : Timer σ) (e : Event) (h : step t e = some t1) :
    t1.frequency_hz_ = t.frequency_hz_ ∧ t1.period_ns_ = t.period_ns_ ∧
      t1.callback_ = t.callback_ := by
  cases e <;> simp only [step, timerLoop] at h <;> (repeat' split at h) <;> cases h <;> simp

theorem run_nil (t : Timer σ) : run t [] = some t := rfl

theorem run_cons (t : Timer σ) (e : Event) (es : List Event) :
    run t (e :: es) = (step t e).bind (fun t1 => run t1 es) := rfl

theorem run_append (t : Timer σ) (es1 es2 : List Event) :
    run t (es1 ++ es2) = (run t es1).bind (fun t1 => run t1 es2) := by
  induction es1 generalizing t with
  | nil => simp [run]
  | cons e es ih =>
    simp only [List.cons_append, run_cons]
    cases step t e with
    | none => simp
    | some t1 => simpa using ih t1

/-- A property that every event preserves holds along every execution. -/
theorem run_induction (P : Timer σ → Prop)
    (hstep : ∀ (t t1 : Timer σ) (e : Event), P t → step t e = some t1 → P t1)
    (t t1 : Timer σ) (es : List Event) (h0 : P t) (h : run t es = some t1) : P t1 := by
  induction es generalizing t with
  | nil =>
    simp only [run, Option.some.injEq] at h
    exact h ▸ h0
  | cons e es ih =>
    rw [run_cons] at h
    cases hs : step t e with
    | none => simp [hs] at h
    | some t2 =>
      rw [hs] at h
      exact ih t2 (hstep t t2 e h0 hs) h

theorem run_frame (t t1 : Timer σ) (es : List Event) (h : run t es = some t1) :
    t1.frequency_hz_ = t.frequency_hz_ ∧ t1.period_ns_ = t.period_ns_ ∧
      t1.callback_ = t.callback_ := by
  refine run_induction
    (fun s => s.frequency_hz_ = t.frequency_hz_ ∧ s.period_ns_ = t.period_ns_ ∧
      s.callback_ = t.callback_) ?_ t t1 es ⟨rfl, rfl, rfl⟩ h
  intro s s1 e hs hstep
  obtain ⟨a, b, c⟩ := step_frame s s1 e hstep
  exact ⟨a.trans hs.1, b.trans hs.2.1, c.trans hs.2.2⟩

/-! ## Invariant -/

theorem construct_ok (oor : ℤ) (world : σ) (f : Double) (cb : Callback σ)
    (hf : Double.le f Double.zero = false) (hcb : cb.isSome = true) :
    construct oor world f cb = Except.ok
      { frequency_hz_ := f, period_ns_ := periodOf oor f, callback_ := cb, running_ := true,
        timer_thread_ := Thread.entry, world := world, joiners := 0, invocations := 0,
        joins := 0 } := by
  cases cb with
  | none => simp at hcb
  | some a => simp [construct, memInit, hf]

theorem construct_ok_inv (oor : ℤ) (world : σ) (f : Double) (cb : Callback σ) (t : Timer σ)
    (h : construct oor world f cb = Except.ok t) :
    t.frequency_hz_ = f ∧ t.period_ns_ = periodOf oor f ∧ t.callback_ = cb ∧
      cb.isSome = true ∧ Double.le f Double.zero = false ∧ t.running_ = true ∧
      t.timer_thread_ = Thread.entry ∧ t.joiners = 0 ∧ t.invocations = 0 ∧ t.joins = 0 := by
  unfold construct at h
  simp only [memInit] at h
  split at h
  · cases h
  · split at h
    · cases h
    · cases h
      cases cb <;> simp_all

theorem construct_inv (oor : ℤ) (world : σ) (f : Double) (cb : Callback σ) (t : Timer σ)
    (h : construct oor world f cb = Except.ok t) : Inv t := by
  obtain ⟨-, -, -, -, -, h1, h2, h3, -, h4⟩ := construct_ok_inv oor world f cb t h
  exact Or.inl ⟨h1, by rw [h2]; rfl, h3, h4⟩

/-- The constructor at 10 Hz with the callback `tick`. -/
theorem construct_tenHz (oor : ℤ) :
    construct oor 0 (Double.fin 10) (some tick) = Except.ok tenHz := by
  rw [construct_ok oor (0 : ℕ) (Double.fin 10) (some tick) (by simp [Double.le, Double.zero])
    rfl, periodOf_ten]
  rfl

theorem joinable_of_inLoop (th : Thread) (h : th.inLoop = true) : th.joinable = true := by
  cases th <;> simp_all [Thread.inLoop, Thread.joinable]

theorem step_inv (t t1 : Timer σ) (e : Event) (hi : Inv t) (h : step t e = some t1) :
    Inv t1 := by
  have hg := guardedCall_snd t.callback_ t.world
  have hj := joinable_of_inLoop t.timer_thread_
  cases e <;> simp only [step, timerLoop] at h <;> (repeat' split at h) <;> cases h <;>
    simp_all [Inv, Thread.inLoop, Thread.joinable]

theorem run_inv (t t1 : Timer σ) (es : List Event) (hi : Inv t) (h : run t es = some t1) :
    Inv t1 :=
  run_induction Inv (fun s s1 e hs hstep => step_inv s s1 e hs hstep) t t1 es hi h

/-! ## Further lemmas on executions -/

/-- Where no thread was started, nothing ever runs: the flag stays false and the callback is
not called. -/
theorem step_notAThread (t t1 : Timer σ) (e : Event) (w : σ)
    (hi : t.running_ = false ∧ t.timer_thread_ = Thread.notAThread ∧ t.invocations = 0 ∧
      t.world = w)
    (h : step t e = some t1) :
    t1.running_ = false ∧ t1.timer_thread_ = Thread.notAThread ∧ t1.invocations = 0 ∧
      t1.world = w := by
  cases e <;> simp only [step, timerLoop] at h <;> (repeat' split at h) <;> cases h <;> simp_all

/-- Once the thread is joined, every event leaves the thread joined and the counts of
callback calls and of joins as they are. -/
theorem step_joined (t t1 : Timer σ) (e : Event) (n k : ℕ)
    (hi : t.timer_thread_ = Thread.joined ∧ t.invocations = n ∧ t.joins = k)
    (h : step t e = some t1) :
    t1.timer_thread_ = Thread.joined ∧ t1.invocations = n ∧ t1.joins = k := by
  cases e <;> simp only [step, timerLoop] at h <;> (repeat' split at h) <;> cases h <;> simp_all

theorem lt_zero_not_le (f : Double) (h : Double.lt Double.zero f = true) :
    Double.le f Double.zero = false := by
  cases f with
  | nan => simp [Double.lt, Double.zero] at h
  | inf s => cases s <;> simp_all [Double.lt, Double.le, Double.zero]
  | fin q =>
    simp only [Double.lt, Double.zero, decide_eq_true_eq] at h
    simp [Double.le, Double.zero, h]

theorem stopSeq_frame (t t1 : Timer σ) (nows : List ℤ) (h : stopSeq t nows = some t1) :
    t1.frequency_hz_ = t.frequency_hz_ ∧ t1.period_ns_ = t.period_ns_ ∧
      t1.callback_ = t.callback_ := by
  induction nows generalizing t with
  | nil =>
    simp only [stopSeq, Option.some.injEq] at h
    subst h
    exact ⟨rfl, rfl, rfl⟩
  | cons now nows ih =>
    simp only [stopSeq] at h
    cases hs : stop now t with
    | none => simp [hs] at h
    | some t2 =>
      rw [hs] at h
      obtain ⟨a, b, c⟩ := ih t2 h
      obtain ⟨a2, b2, c2⟩ := run_frame t t2 _ hs
      exact ⟨a.trans a2, b.trans b2, c.trans c2⟩

/-! ## The claims -/

/-- C1. The constructor throws `invalid_argument` exactly when `frequency_hz <= 0.0` holds or
the callback is empty. When it throws, the members are as the initialiser list left them:
`running_` is false and `timer_thread_` owns no thread; in that storage no event of the loop
can fire, so along every execution the flag stays false and the callback is never called. -/
theorem construct_throws_iff (oor : ℤ) (world : σ) (f : Double) (cb : Callback σ) :
    ((∃ what m, construct oor world f cb = Except.error (Exn.invalid_argument what, m)) ↔
      (Double.le f Double.zero = true ∨ cb = none)) ∧
    ∀ (e : Exn) (m : Members σ), construct oor world f cb = Except.error (e, m) →
      m = memInit f cb ∧ m.running_ = false ∧ m.timer_thread_ = Thread.notAThread ∧
      m.timer_thread_.joinable = false ∧
      ∀ (garbage : ℤ) (es : List Event) (t : Timer σ),
        run (m.storage garbage world) es = some t →
          t.running_ = false ∧ t.timer_thread_ = Thread.notAThread ∧ t.invocations = 0 ∧
            t.world = world := by
  constructor
  · constructor
    · rintro ⟨what, m, h⟩
      by_contra hcon
      push_neg at hcon
      have hf : Double.le f Double.zero = false := by simpa using hcon.1
      have hcb : cb.isSome = true := by
        cases cb with
        | none => exact absurd rfl hcon.2
        | some a => rfl
      rw [construct_ok oor world f cb hf hcb] at h
      cases h
    · rintro (h | h)
      · exact ⟨"Frequency must be positive", memInit f cb, by simp [construct, memInit, h]⟩
      · subst h
        by_cases hf : Double.le f Double.zero = true
        · exact ⟨"Frequency must be positive", memInit f none,
            by simp [construct, memInit, hf]⟩
        · exact ⟨"Callback function cannot be null", memInit f none,
            by simp [construct, memInit, hf]⟩
  · intro e m h
    have hm : m = memInit f cb := by
      unfold construct at h
      simp only at h
      split at h
      · cases h
        rfl
      · split at h
        · cases h
          rfl
        · cases h
    subst hm
    refine ⟨rfl, rfl, rfl, rfl, ?_⟩
    intro garbage es t hrun
    exact run_induction
      (fun s => s.running_ = false ∧ s.timer_thread_ = Thread.notAThread ∧ s.invocations = 0 ∧
        s.world = world)
      (fun s s1 ev hs hstep => step_notAThread s s1 ev world hs hstep) _ t es
      ⟨rfl, rfl, rfl, rfl⟩ hrun

/-- Witness of C1: the frequency `0.0` is refused, and nothing runs afterwards. -/
theorem construct_throws_iff_witness :
    (∃ what m, construct 0 (0 : ℕ) Double.zero (some tick) =
      Except.error (Exn.invalid_argument what, m)) ∧
    ∀ (es : List Event) (t : Timer ℕ),
      run ((memInit Double.zero (some tick)).storage 0 0) es = some t → t.invocations = 0 := by
  have h := construct_throws_iff 0 (0 : ℕ) Double.zero (some tick)
  have h1 : construct 0 (0 : ℕ) Double.zero (some tick) =
      Except.error (Exn.invalid_argument "Frequency must be positive",
        memInit Double.zero (some tick)) := by
    simp [construct, memInit, Double.le, Double.zero]
  refine ⟨h.1.mpr (Or.inl (by simp [Double.le, Double.zero])), ?_⟩
  intro es t hrun
  exact ((h.2 _ _ h1).2.2.2.2 0 es t hrun).2.2.1

/-- C5. For every frequency `f > 0` and every non-empty callback the constructor succeeds and
`getFrequency()` returns `f`, right after construction and after every execution (calls of
`stop`, reads, loop passes): no event writes `frequency_hz_`. -/
theorem getFrequency_constant (oor : ℤ) (world : σ) (f : Double) (a : σ → σ × Outcome)
    (hf : Double.lt Double.zero f = true) :
    ∃ t0 : Timer σ, construct oor world f (some a) = Except.ok t0 ∧ getFrequency t0 = f ∧
      (∀ (es : List Event) (t : Timer σ), run t0 es = some t → getFrequency t = f) ∧
      (∀ (nows : List ℤ) (t : Timer σ), stopSeq t0 nows = some t → getFrequency t = f) := by
  refine ⟨_, construct_ok oor world f (some a) (lt_zero_not_le f hf) rfl, rfl, ?_, ?_⟩
  · intro es t h
    exact (run_frame _ t es h).1
  · intro nows t h
    exact (stopSeq_frame _ t nows h).1

/-- Witness of C5: 10 Hz. -/
theorem getFrequency_constant_witness :
    Double.lt Double.zero (Double.fin 10) = true ∧
    ∃ t0 : Timer ℕ, construct 0 0 (Double.fin 10) (some tick) = Except.ok t0 ∧
      getFrequency t0 = Double.fin 10 ∧
      (∀ (es : List Event) (t : Timer ℕ), run t0 es = some t →
        getFrequency t = Double.fin 10) ∧
      (∀ (nows : List ℤ) (t : Timer ℕ), stopSeq t0 nows = some t →
        getFrequency t = Double.fin 10) :=
  ⟨by simp [Double.lt, Double.zero],
   getFrequency_constant 0 0 (Double.fin 10) tick (by simp [Double.lt, Double.zero])⟩

/-- C6, as stated, fails: 2e9 is a `double`, it is positive, the constructor accepts it, and
the period it derives is 0 ns. -/
theorem period_zero_at_two_e9 :
    Double.representable (Double.fin 2000000000) ∧
    Double.lt Double.zero (Double.fin 2000000000) = true ∧
    construct 0 (0 : ℕ) (Double.fin 2000000000) (some tick) = Except.ok
      { frequency_hz_ := Double.fin 2000000000, period_ns_ := 0, callback_ := some tick,
        running_ := true, timer_thread_ := Thread.entry, world := 0, joiners := 0,
        invocations := 0, joins := 0 } := by
  refine ⟨representable_two_e9, by simp [Double.lt, Double.zero], ?_⟩
  rw [construct_ok 0 (0 : ℕ) (Double.fin 2000000000) (some tick)
    (by simp [Double.le, Double.zero]) rfl, periodOf_two_e9]

/-- C6, amended. For every finite frequency `f` with `1e9 / (2 ^ 63 - 1024) ≤ f ≤ 1e9` and
every non-empty callback the constructor succeeds with a period of at least one nanosecond
(and at most `2 ^ 63 - 1024`), whatever the platform does with out-of-range conversions.
(Below that range the quotient does not fit in a `long long`, see `periodOf_out_of_range`.)
And for every frequency and callback that the constructor accepts, the period is the
truncated quotient and no event, nor any sequence of calls of `stop`, changes `period_ns_`
afterwards. -/
theorem period_positive_and_constant (oor : ℤ) (world : σ) :
    (∀ (q : ℚ) (a : σ → σ × Outcome),
      1000000000 / ((2 : ℚ) ^ (63 : ℕ) - 1024) ≤ q → q ≤ 1000000000 →
      ∃ t0 : Timer σ, construct oor world (Double.fin q) (some a) = Except.ok t0 ∧
        0 < t0.period_ns_ ∧ t0.period_ns_ ≤ (2 : ℤ) ^ (63 : ℕ) - 1024) ∧
    (∀ (f : Double) (cb : Callback σ) (t0 : Timer σ),
      construct oor world f cb = Except.ok t0 →
        t0.period_ns_ = periodOf oor f ∧
        (∀ (es : List Event) (t : Timer σ), run t0 es = some t →
          t.period_ns_ = t0.period_ns_) ∧
        (∀ (nows : List ℤ) (t : Timer σ), stopSeq t0 nows = some t →
          t.period_ns_ = t0.period_ns_)) := by
  constructor
  · intro q a hlo hhi
    have hq : 0 < q := lt_of_lt_of_le (div_pos (by norm_num) (by norm_num)) hlo
    have hf : Double.le (Double.fin q) Double.zero = false := by
      simp [Double.le, Double.zero, hq]
    obtain ⟨b1, b2⟩ := periodOf_bounds oor q hlo hhi
    refine ⟨_, construct_ok oor world (Double.fin q) (some a) hf rfl, ?_, b2⟩
    show 0 < periodOf oor (Double.fin q)
    omega
  · intro f cb t0 h0
    refine ⟨(construct_ok_inv oor world f cb t0 h0).2.1, ?_, ?_⟩
    · intro es t h
      exact (run_frame t0 t es h).2.1
    · intro nows t h
      exact (stopSeq_frame t0 t nows h).2.1

/-- Witness of C6 amended: 10 Hz gives 100000000 ns and 1000 Hz gives 1000000 ns; at 2e9 Hz,
accepted with the period 0 ns, the period stays 0 ns along every execution. -/
theorem period_positive_and_constant_witness :
    (1000000000 / ((2 : ℚ) ^ (63 : ℕ) - 1024) ≤ 10 ∧ (10 : ℚ) ≤ 1000000000) ∧
    (∃ t0 : Timer ℕ, construct 0 0 (Double.fin 10) (some tick) = Except.ok t0 ∧
      0 < t0.period_ns_ ∧ t0.period_ns_ ≤ (2 : ℤ) ^ (63 : ℕ) - 1024) ∧
    periodOf 0 (Double.fin 10) = 100000000 ∧ periodOf 0 (Double.fin 1000) = 1000000 ∧
    (∀ (es : List Event) (t : Timer ℕ), run tenHz es = some t →
      t.period_ns_ = tenHz.period_ns_) ∧
    (∀ (t0 : Timer ℕ),
      construct 0 0 (Double.fin 2000000000) (some tick) = Except.ok t0 →
        t0.period_ns_ = 0 ∧
        ∀ (es : List Event) (t : Timer ℕ), run t0 es = some t → t.period_ns_ = 0) :=
  have h := period_positive_and_constant 0 (0 : ℕ)
  ⟨⟨by norm_num, by norm_num⟩, h.1 10 tick (by norm_num) (by norm_num),
   periodOf_ten 0, periodOf_thousand 0,
   (h.2 (Double.fin 10) (some tick) tenHz (construct_tenHz 0)).2.1,
   fun t0 h0 =>
     have h2 := h.2 (Double.fin 2000000000) (some tick) t0 h0
     have hz : t0.period_ns_ = 0 := h2.1.trans (periodOf_two_e9 0)
     ⟨hz, fun es t hr => (h2.2.1 es t hr).trans hz⟩⟩

/-- A call of `stop` on a timer whose flag is already false changes nothing. -/
theorem stop_of_not_running (now : ℤ) (t : Timer σ) (h : t.running_ = false) :
    stop now t = some t := by
  cases t
  simp_all [stop, stopEvents, run, step, timerLoop]

theorem stopSeq_of_not_running (t : Timer σ) (h : t.running_ = false) (nows : List ℤ) :
    stopSeq t nows = some t := by
  induction nows with
  | nil => rfl
  | cons now nows ih => simp [stopSeq, stop_of_not_running now t h, ih]

/-- A call of `stop` on a running timer clears the flag, lets the loop finish and joins the
thread once. -/
theorem stop_of_running (now : ℤ) (t : Timer σ) (hr : t.running_ = true)
    (hl : t.timer_thread_.inLoop = true) (hq : t.joiners = 0) (hj : t.joins = 0) :
    ∃ t1 : Timer σ, stop now t = some t1 ∧ t1.running_ = false ∧
      t1.timer_thread_ = Thread.joined ∧ t1.joiners = 0 ∧ t1.joins = 1 := by
  have hg := guardedCall_snd t.callback_ t.world
  cases hth : t.timer_thread_ <;>
    simp_all [stop, stopEvents, run, step, timerLoop, loopRest, Thread.inLoop, Thread.joinable]

/-- C2. `stop` is idempotent. In every state reached from a constructed timer in which no
other caller is inside `stop`, a call of `stop` returns, leaving the flag false and the thread
joined; a second call, the destructor, and every further sequence of calls return without
changing anything in that state, so the number of completed `join()` calls is one and stays
one, also along every later execution. -/
theorem stop_idempotent (oor : ℤ) (world : σ) (f : Double) (cb : Callback σ) (t0 : Timer σ)
    (h0 : construct oor world f cb = Except.ok t0) (es : List Event) (t : Timer σ)
    (hrun : run t0 es = some t) (hq : t.joiners = 0) (now : ℤ) :
    ∃ t1 : Timer σ, stop now t = some t1 ∧ t1.running_ = false ∧
      t1.timer_thread_ = Thread.joined ∧ t1.joins = 1 ∧
      (∀ now2 : ℤ, stop now2 t1 = some t1) ∧
      (∀ now2 : ℤ, destructor now2 t1 = some t1) ∧
      (∀ nows : List ℤ, stopSeq t1 nows = some t1) ∧
      (∀ nows : List ℤ, (stopSeq t (now :: nows)).map Timer.joins = some 1) ∧
      (∀ (es2 : List Event) (t2 : Timer σ), run t1 es2 = some t2 → t2.joins = 1) := by
  have hi : Inv t := run_inv t0 t es (construct_inv oor world f cb t0 h0) hrun
  have key : ∃ t1 : Timer σ, stop now t = some t1 ∧ t1.running_ = false ∧
      t1.timer_thread_ = Thread.joined ∧ t1.joiners = 0 ∧ t1.joins = 1 := by
    rcases hi with ⟨a, b, c, d⟩ | ⟨a, b, c, d⟩ | ⟨a, b, c, d⟩
    · exact stop_of_running now t a b c d
    · omega
    · exact ⟨t, stop_of_not_running now t a, a, b, c, d⟩
  obtain ⟨t1, h1, h2, h3, -, h5⟩ := key
  refine ⟨t1, h1, h2, h3, h5, fun now2 => stop_of_not_running now2 t1 h2,
    fun now2 => stop_of_not_running now2 t1 h2, stopSeq_of_not_running t1 h2, ?_, ?_⟩
  · intro nows
    simp [stopSeq, h1, stopSeq_of_not_running t1 h2 nows, h5]
  · intro es2 t2 hrun2
    exact (run_induction
      (fun s => s.timer_thread_ = Thread.joined ∧ s.invocations = t1.invocations ∧ s.joins = 1)
      (fun s s1 ev hs hstep => step_joined s s1 ev _ _ hs hstep) t1 t2 es2 ⟨h3, rfl, h5⟩
      hrun2).2.2

/-- One pass of the 10 Hz timer, entered at instant 0 and woken on time. -/
theorem run_tenHz_secondPass :
    run tenHz [Event.enter 0, Event.check, Event.iterate 100000000, Event.check] =
      some tenHzSecondPass := by
  rfl

/-- Witness of C2: a 10 Hz timer stopped in front of its second pass. -/
theorem stop_idempotent_witness :
    ∃ t1 : Timer ℕ, stop 200000000 tenHzSecondPass = some t1 ∧ t1.running_ = false ∧
      t1.timer_thread_ = Thread.joined ∧ t1.joins = 1 ∧
      (∀ now2 : ℤ, stop now2 t1 = some t1) ∧
      (∀ now2 : ℤ, destructor now2 t1 = some t1) ∧
      (∀ nows : List ℤ, stopSeq t1 nows = some t1) ∧
      (∀ nows : List ℤ,
        (stopSeq tenHzSecondPass (200000000 :: nows)).map Timer.joins = some 1) ∧
      (∀ (es2 : List Event) (t2 : Timer ℕ), run t1 es2 = some t2 → t2.joins = 1) :=
  stop_idempotent 0 0 (Double.fin 10) (some tick) tenHz (construct_tenHz 0)
    [Event.enter 0, Event.check, Event.iterate 100000000, Event.check] tenHzSecondPass
    run_tenHz_secondPass rfl 200000000

/-- C3, as stated, fails. A 10 Hz timer is constructed; its thread enters the loop and passes
the test of line 86; a first caller of `stop` clears the flag and blocks in `join()`; a second
caller of `stop` finds the flag false, so its call returns at once, after 0 callback calls;
then the thread, already past the test, calls the callback: 1 call. -/
theorem stop_returns_before_last_invocation :
    construct 0 0 (Double.fin 10) (some tick) = Except.ok tenHz ∧
    (run tenHz [Event.enter 0, Event.check, Event.stopExchange]).map
      (fun t => (t.running_, t.joiners, t.timer_thread_)) =
        some (false, 1, Thread.body 0) ∧
    (run tenHz [Event.enter 0, Event.check, Event.stopExchange]).map
      (fun t => stopReturns t Event.stopExchange) = some true ∧
    (run tenHz [Event.enter 0, Event.check, Event.stopExchange, Event.stopExchange]).map
      Timer.invocations = some 0 ∧
    (run tenHz [Event.enter 0, Event.check, Event.stopExchange, Event.stopExchange,
      Event.iterate 100000000]).map Timer.invocations = some 1 :=
  ⟨construct_tenHz 0, by decide, by decide, by decide, by decide⟩

/-- The last event of a call of `stop` leaves the flag false. -/
theorem stopReturns_not_running (t t1 : Timer σ) (e : Event) (hi : Inv t)
    (h : step t e = some t1) (hret : stopReturns t e = true) : t1.running_ = false := by
  cases e <;> simp only [step, timerLoop] at h <;> (repeat' split at h) <;> cases h <;>
    simp_all [stopReturns]
  rcases hi with ⟨a, b, c, d⟩ | ⟨a, b, c, d⟩ | ⟨a, b, c, d⟩ <;> simp_all

/-- C3, amended. In every execution of a constructed timer, when a call of `stop` returns and
it is the call that joined the thread, or no other caller is blocked inside `stop` at that
moment, the thread has been joined and the number of callback calls is the same at every later
moment. -/
theorem no_invocation_after_stop (oor : ℤ) (world : σ) (f : Double) (cb : Callback σ)
    (t0 : Timer σ) (h0 : construct oor world f cb = Except.ok t0)
    (es : List Event) (t : Timer σ) (h1 : run t0 es = some t)
    (e : Event) (t1 : Timer σ) (h2 : step t e = some t1) (hret : stopReturns t e = true)
    (hq : e = Event.stopJoin ∨ t1.joiners = 0)
    (es2 : List Event) (t2 : Timer σ) (h3 : run t1 es2 = some t2) :
    t1.timer_thread_ = Thread.joined ∧ t2.timer_thread_ = Thread.joined ∧
      t2.invocations = t1.invocations := by
  have hi : Inv t := run_inv t0 t es (construct_inv oor world f cb t0 h0) h1
  have hi1 : Inv t1 := step_inv t t1 e hi h2
  have hr1 : t1.running_ = false := stopReturns_not_running t t1 e hi h2 hret
  have hq1 : t1.joiners = 0 := by
    rcases hq with hq | hq
    · subst hq
      simp only [step, timerLoop] at h2
      split at h2
      · cases h2
        rcases hi with ⟨a, b, c, d⟩ | ⟨a, b, c, d⟩ | ⟨a, b, c, d⟩ <;> simp_all
      · cases h2
    · exact hq
  have hj : t1.timer_thread_ = Thread.joined := by
    rcases hi1 with ⟨a, b, c, d⟩ | ⟨a, b, c, d⟩ | ⟨a, b, c, d⟩
    · rw [hr1] at a
      cases a
    · omega
    · exact b
  have := run_induction
    (fun s => s.timer_thread_ = Thread.joined ∧ s.invocations = t1.invocations ∧
      s.joins = t1.joins)
    (fun s s1 ev hs hstep => step_joined s s1 ev _ _ hs hstep) t1 t2 es2 ⟨hj, rfl, rfl⟩ h3
  exact ⟨hj, this.1, this.2.1⟩

/-- The 10 Hz timer stopped in front of its second pass: the flag is false, the caller of
`stop` waits, the thread has finished. -/
theorem run_tenHz_stopping :
    run tenHz [Event.enter 0, Event.check, Event.iterate 100000000, Event.check,
      Event.stopExchange, Event.iterate 200000000, Event.check] = some tenHzStopping := by
  rfl

/-- Witness of C3 amended: the 10 Hz timer is stopped in front of its second pass; the call of
`stop` returns after 2 callback calls, and later events leave that count alone. -/
theorem no_invocation_after_stop_witness :
    step tenHzStopping Event.stopJoin = some tenHzStopped ∧
      stopReturns tenHzStopping Event.stopJoin = true ∧
      run tenHzStopped [Event.stopExchange, Event.readRunning, Event.readFrequency] =
        some tenHzStopped ∧
      tenHzStopped.timer_thread_ = Thread.joined ∧ tenHzStopped.invocations = 2 :=
  ⟨rfl, rfl, rfl,
   (no_invocation_after_stop 0 0 (Double.fin 10) (some tick) tenHz (construct_tenHz 0)
      [Event.enter 0, Event.check, Event.iterate 100000000, Event.check,
        Event.stopExchange, Event.iterate 200000000, Event.check]
      tenHzStopping run_tenHz_stopping Event.stopJoin tenHzStopped rfl rfl (Or.inl rfl)
      [Event.stopExchange, Event.readRunning, Event.readFrequency] tenHzStopped rfl).1,
   rfl⟩

/-- Every event but the exchange of `stop` leaves the flag alone; the exchange clears it. -/
theorem step_running (t t1 : Timer σ) (e : Event) (h : step t e = some t1) :
    t1.running_ = (t.running_ && decide (e ≠ Event.stopExchange)) := by
  cases e <;> simp only [step, timerLoop] at h <;> (repeat' split at h) <;> cases h <;> simp_all

theorem run_running (t t1 : Timer σ) (es : List Event) (h : run t es = some t1) :
    (t1.running_ = true ↔ (t.running_ = true ∧ Event.stopExchange ∉ es)) := by
  induction es generalizing t with
  | nil =>
    simp only [run, Option.some.injEq] at h
    subst h
    simp
  | cons e es ih =>
    rw [run_cons] at h
    cases hs : step t e with
    | none => simp [hs] at h
    | some t2 =>
      rw [hs] at h
      rw [ih t2 h, step_running t t2 e hs]
      simp only [Bool.and_eq_true, decide_eq_true_eq, List.mem_cons, not_or]
      constructor
      · rintro ⟨⟨a, b⟩, c⟩
        exact ⟨a, fun hh => b hh.symm, c⟩
      · rintro ⟨a, b, c⟩
        exact ⟨⟨a, fun hh => b hh.symm⟩, c⟩

/-- C7. After construction `isRunning()` is true. Along every execution (calls of `stop`, the
destructor, reads, loop passes) it is true exactly as long as no call of `stop` has executed
its exchange; and from a state in which it is false, every execution leads to a state in which
it is false: the flag goes from true to false once and never back. -/
theorem running_flag_monotone (oor : ℤ) (world : σ) (f : Double) (cb : Callback σ)
    (t0 : Timer σ) (h0 : construct oor world f cb = Except.ok t0) :
    isRunning t0 = true ∧
    ∀ (es : List Event) (t : Timer σ), run t0 es = some t →
      (isRunning t = true ↔ Event.stopExchange ∉ es) ∧
      ∀ (es2 : List Event) (t2 : Timer σ), run t es2 = some t2 →
        isRunning t = false → isRunning t2 = false := by
  have hr : t0.running_ = true := (construct_ok_inv oor world f cb t0 h0).2.2.2.2.2.1
  refine ⟨hr, ?_⟩
  intro es t h
  constructor
  · unfold isRunning
    rw [run_running t0 t es h]
    simp [hr]
  · intro es2 t2 h2 hf
    unfold isRunning at hf ⊢
    have := run_running t t2 es2 h2
    rw [hf] at this
    cases hb : t2.running_ with
    | false => rfl
    | true => simp [hb] at this

/-- Witness of C7: the 10 Hz timer runs through one pass and is then stopped. -/
theorem running_flag_monotone_witness :
    isRunning tenHz = true ∧
    (isRunning tenHzSecondPass = true ↔
      Event.stopExchange ∉
        [Event.enter 0, Event.check, Event.iterate 100000000, Event.check]) ∧
    (isRunning tenHzStopping = true ↔
      Event.stopExchange ∉
        [Event.enter 0, Event.check, Event.iterate 100000000, Event.check,
          Event.stopExchange, Event.iterate 200000000, Event.check]) ∧
    isRunning tenHzStopped = false :=
  have h := running_flag_monotone 0 0 (Double.fin 10) (some tick) tenHz (construct_tenHz 0)
  ⟨h.1, (h.2 _ tenHzSecondPass run_tenHz_secondPass).1,
   (h.2 _ tenHzStopping run_tenHz_stopping).1,
   (h.2 _ tenHzStopping run_tenHz_stopping).2 [Event.stopJoin] tenHzStopped rfl rfl⟩

/-! ### The callback boundary -/

/-- An event does to the schedule of two timers the same thing, whatever their (non-empty)
callbacks do. -/
theorem step_schedule (t u : Timer σ) (e : Event) (hs : schedule t = schedule u)
    (ht : t.callback_.isSome = true) (hu : u.callback_.isSome = true) :
    (step t e).map schedule = (step u e).map schedule := by
  have hgt := guardedCall_snd t.callback_ t.world
  have hgu := guardedCall_snd u.callback_ u.world
  simp only [schedule, Prod.mk.injEq] at hs
  obtain ⟨h1, h2, h3, h4, h5, h6, h7⟩ := hs
  cases e <;> simp only [step, timerLoop, h2, h3, h4, h5, h6, h7, ht, hu, hgt, hgu] <;>
    (repeat' split) <;> simp_all [schedule]

theorem step_isSome (t t1 : Timer σ) (e : Event) (h : step t e = some t1) :
    t1.callback_.isSome = t.callback_.isSome := by
  rw [(step_frame t t1 e h).2.2]

theorem run_schedule (t u : Timer σ) (es : List Event) (hs : schedule t = schedule u)
    (ht : t.callback_.isSome = true) (hu : u.callback_.isSome = true) :
    (run t es).map schedule = (run u es).map schedule := by
  induction es generalizing t u with
  | nil => simp [run, hs]
  | cons e es ih =>
    have h := step_schedule t u e hs ht hu
    rw [run_cons, run_cons]
    cases h1 : step t e with
    | none =>
      cases h2 : step u e with
      | none => rfl
      | some u1 => simp [h1, h2] at h
    | some t1 =>
      cases h2 : step u e with
      | none => simp [h1, h2] at h
      | some u1 =>
        simp only [h1, h2, Option.map_some', Option.some.injEq] at h
        simp only [Option.some_bind]
        exact ih t1 u1 h ((step_isSome t t1 e h1).trans ht) ((step_isSome u u1 e h2).trans hu)

/-- No event takes the thread out of `timerLoop` by an exception. -/
theorem step_not_terminated (t t1 : Timer σ) (e : Event)
    (hi : t.timer_thread_ ≠ Thread.terminated) (h : step t e = some t1) :
    t1.timer_thread_ ≠ Thread.terminated := by
  have hg := guardedCall_snd t.callback_ t.world
  cases e <;> simp only [step, timerLoop] at h <;> (repeat' split at h) <;> cases h <;> simp_all

/-- C4. Let `a` be a callback that throws at every call and `b` one that returns at every
call, in two timers with the same schedule (configuration, flag, thread position and
`next_wakeup`, counters). One pass of the loop body with the clock reading `now` happens in
both or in neither, and leaves both with the same schedule: the same `next_wakeup`, hence the
same resynchronisation decision, and the loop goes on to the test of line 86. The same holds
for every execution, so both callbacks are called the same number of times; and no exception
leaves `timerLoop`. -/
theorem failing_callback_contained (t u : Timer σ) (a b : σ → σ × Outcome)
    (ha : ∀ w, (a w).2 = Outcome.threw) (hb : ∀ w, (b w).2 = Outcome.returned)
    (hta : t.callback_ = some a) (hub : u.callback_ = some b)
    (hs : schedule t = schedule u) (hth : t.timer_thread_ ≠ Thread.terminated) :
    (∀ w, (guardedCall (some a) w).2 = false ∧ (invoke (some a) w).2 = Outcome.threw ∧
      (invoke (some b) w).2 = Outcome.returned) ∧
    (∀ (next_wakeup now : ℤ), t.timer_thread_ = Thread.body next_wakeup →
      ∃ t1 u1 : Timer σ, step t (Event.iterate now) = some t1 ∧
        step u (Event.iterate now) = some u1 ∧ schedule t1 = schedule u1 ∧
        t1.timer_thread_ = Thread.test (iteration t.period_ns_ next_wakeup now) ∧
        t1.invocations = t.invocations + 1 ∧ u1.invocations = u.invocations + 1) ∧
    (∀ es : List Event, (run t es).map schedule = (run u es).map schedule ∧
      (run t es).map Timer.invocations = (run u es).map Timer.invocations ∧
      ∀ t1 : Timer σ, run t es = some t1 → t1.timer_thread_ ≠ Thread.terminated) := by
  have hts : t.callback_.isSome = true := by rw [hta]; rfl
  have hus : u.callback_.isSome = true := by rw [hub]; rfl
  refine ⟨fun w => ⟨guardedCall_snd _ w, ha w, hb w⟩, ?_, ?_⟩
  · intro nw now hbody
    have hgt := guardedCall_snd t.callback_ t.world
    have hgu := guardedCall_snd u.callback_ u.world
    have hs2 := hs
    simp only [schedule, Prod.mk.injEq] at hs2
    obtain ⟨h1, h2, h3, h4, h5, h6, h7⟩ := hs2
    have hbody2 : u.timer_thread_ = Thread.body nw := by rw [← h4, hbody]
    have e1 : step t (Event.iterate now) = some
        { t with world := (guardedCall t.callback_ t.world).1, invocations := t.invocations + 1,
                 timer_thread_ := Thread.test (resync t.period_ns_ (advance t.period_ns_ nw) now) } := by
      simp [step, timerLoop, hbody, hgt, hts]
    have e2 : step u (Event.iterate now) = some
        { u with world := (guardedCall u.callback_ u.world).1, invocations := u.invocations + 1,
                 timer_thread_ := Thread.test (resync u.period_ns_ (advance u.period_ns_ nw) now) } := by
      simp [step, timerLoop, hbody2, hgu, hus]
    refine ⟨_, _, e1, e2, ?_, rfl, rfl, rfl⟩
    have := step_schedule t u (Event.iterate now) hs hts hus
    rw [e1, e2] at this
    simpa using this
  · intro es
    have h := run_schedule t u es hs hts hus
    refine ⟨h, ?_, ?_⟩
    · cases h1 : run t es with
      | none =>
        cases h2 : run u es with
        | none => rfl
        | some u1 => simp [h1, h2] at h
      | some t1 =>
        cases h2 : run u es with
        | none => simp [h1, h2] at h
        | some u1 =>
          simp only [h1, h2, Option.map_some', Option.some.injEq] at h
          simp only [schedule, Prod.mk.injEq] at h
          simp [h.2.2.2.2.2.1]
    · intro t1 h1
      exact run_induction (fun s => s.timer_thread_ ≠ Thread.terminated)
        (fun s s1 ev hs hstep => step_not_terminated s s1 ev hs hstep) t t1 es hth h1

/-- Witness of C4: at 10 Hz the throwing callback `faulty` and the returning callback `tick`
are each called twice in two passes. -/
theorem failing_callback_contained_witness :
    (run tenHzFaulty [Event.enter 0, Event.check, Event.iterate 100000000, Event.check,
      Event.iterate 200000000]).map Timer.invocations = some 2 ∧
    (run tenHz [Event.enter 0, Event.check, Event.iterate 100000000, Event.check,
      Event.iterate 200000000]).map Timer.invocations = some 2 ∧
    (run tenHzFaulty [Event.enter 0, Event.check, Event.iterate 100000000, Event.check,
      Event.iterate 200000000]).map schedule =
    (run tenHz [Event.enter 0, Event.check, Event.iterate 100000000, Event.check,
      Event.iterate 200000000]).map schedule :=
  ⟨by decide, by decide,
   ((failing_callback_contained tenHzFaulty tenHz faulty tick (fun _ => rfl) (fun _ => rfl)
      rfl rfl rfl (by decide)).2.2 _).1⟩

/-! ### The arithmetic of the schedule -/

theorem inRange64_iff (x : ℤ) :
    inRange64 x = true ↔ -9223372036854775808 ≤ x ∧ x < 9223372036854775808 := by
  simp [inRange64]

/-- A sum that fits is not changed by the wrap. -/
theorem wrap64_of_inRange (x : ℤ) (h : inRange64 x = true) : wrap64 x = x := by
  rw [inRange64_iff] at h
  unfold wrap64
  omega

/-- A 64-bit sum is a 64-bit count. -/
theorem inRange64_wrap64 (x : ℤ) : inRange64 (wrap64 x) = true := by
  rw [inRange64_iff]
  unfold wrap64
  omega

/-- One pass of the loop body from the position `body next_wakeup`. -/
theorem step_iterate (t : Timer σ) (next_wakeup now : ℤ)
    (hbody : t.timer_thread_ = Thread.body next_wakeup) :
    ∃ t1 : Timer σ, step t (Event.iterate now) = some t1 ∧
      t1.timer_thread_ = Thread.test (iteration t.period_ns_ next_wakeup now) ∧
      t1.running_ = t.running_ ∧ t1.period_ns_ = t.period_ns_ := by
  have hg := guardedCall_snd t.callback_ t.world
  simp [step, timerLoop, hbody, hg, iteration]

/-- The test of line 86 with the flag true. -/
theorem step_check (t : Timer σ) (next_wakeup : ℤ)
    (htest : t.timer_thread_ = Thread.test next_wakeup) (hrun : t.running_ = true) :
    ∃ t1 : Timer σ, step t Event.check = some t1 ∧
      t1.timer_thread_ = Thread.body next_wakeup ∧ t1.running_ = true ∧
      t1.period_ns_ = t.period_ns_ ∧
      sleepTarget t1 = some (advance t.period_ns_ next_wakeup) := by
  simp [step, timerLoop, htest, hrun, sleepTarget]

/-- The constructor at `2 ^ -33` Hz: the quotient `1e9 * 2 ^ 33` is exact and fits. -/
theorem construct_slowTimer (oor : ℤ) :
    construct oor 0 (Double.fin (1 / 8589934592)) (some tick) = Except.ok slowTimer := by
  have h : roundToDouble (1000000000 / (1 / 8589934592)) =
      Double.fin (1000000000 / (1 / 8589934592)) :=
    roundToDouble_exact _ 62 (1953125 * 2 ^ (32 : ℕ)) (by norm_num) (by norm_num)
      (by norm_num) (by norm_num) (by norm_num)
  have hp : periodOf oor (Double.fin (1 / 8589934592)) = 8589934592000000000 := by
    unfold periodOf
    rw [div_e9_fin _ (by norm_num), h,
      toLongLong_of_nonneg oor _ (by norm_num) (by norm_num)]
    norm_num
  rw [construct_ok oor (0 : ℕ) (Double.fin (1 / 8589934592)) (some tick)
    (by simp [Double.le, Double.zero]) rfl, hp]
  rfl

/-- The value `2 ^ -33` is a `double`. -/
theorem representable_slow : Double.representable (Double.fin (1 / 8589934592)) :=
  roundToDouble_exact _ (-33) (2 ^ (52 : ℕ)) (by norm_num) (by norm_num)
    (by norm_num) (by norm_num) (by norm_num)

/-- C8, as stated, fails. The frequency `2 ^ -33` Hz is a `double` and is accepted, with the
period `P = 8589934592000000000` ns. The thread enters the loop at instant 0, so the first pass
sleeps until `S = P`; the clock reading after the sleep is `S + 5`, that is `now - S = 5 ≤ P`.
The 64-bit sum `S + P` of line 104 wraps to `-1266874889709551616`, the test holds, and the
pass resynchronises: it ends with `next_wakeup = now`, not with `next_wakeup = S`. -/
theorem overflow_forces_resync :
    Double.representable (Double.fin (1 / 8589934592)) ∧
    construct 0 0 (Double.fin (1 / 8589934592)) (some tick) = Except.ok slowTimer ∧
    (run slowTimer [Event.enter 0, Event.check]).map
      (fun t => (t.timer_thread_, sleepTarget t)) =
        some (Thread.body 0, some 8589934592000000000) ∧
    (8589934592000000005 : ℤ) - 8589934592000000000 ≤ slowTimer.period_ns_ ∧
    wrap64 (8589934592000000000 + slowTimer.period_ns_) = -1266874889709551616 ∧
    (run slowTimer [Event.enter 0, Event.check, Event.iterate 8589934592000000005]).map
      (fun t => t.timer_thread_) = some (Thread.test 8589934592000000005) :=
  ⟨representable_slow, construct_slowTimer 0, by decide, by decide, by decide, by decide⟩

/-- C8, amended. The overrun threshold is one period wherever the sum of line 104 fits. Let
the thread stand in front of a pass whose sleep target is `S` (the advanced `next_wakeup`), let
`now` be the clock reading after the sleep, and let `S + period` be a signed 64-bit count. If
`now - S > period` the pass ends with `next_wakeup = now`; if `now - S ≤ period` (so also when
`now = S + period`) it ends with `next_wakeup = S`, and with the flag still true the next pass
targets `S + period`. -/
theorem overrun_threshold (t : Timer σ) (next_wakeup now : ℤ)
    (hbody : t.timer_thread_ = Thread.body next_wakeup) (hrun : t.running_ = true)
    (hfit : inRange64 (advance t.period_ns_ next_wakeup + t.period_ns_) = true) :
    sleepTarget t = some (advance t.period_ns_ next_wakeup) ∧
    ∃ t1 t2 : Timer σ, step t (Event.iterate now) = some t1 ∧
      step t1 Event.check = some t2 ∧
      (now - advance t.period_ns_ next_wakeup > t.period_ns_ →
        t1.timer_thread_ = Thread.test now) ∧
      (now - advance t.period_ns_ next_wakeup ≤ t.period_ns_ →
        t1.timer_thread_ = Thread.test (advance t.period_ns_ next_wakeup) ∧
        sleepTarget t2 = some (advance t.period_ns_ next_wakeup + t.period_ns_)) ∧
      (now = advance t.period_ns_ next_wakeup + t.period_ns_ →
        t1.timer_thread_ = Thread.test (advance t.period_ns_ next_wakeup)) := by
  obtain ⟨t1, h1, h2, h3, h4⟩ := step_iterate t next_wakeup now hbody
  obtain ⟨t2, k1, -, -, -, k5⟩ := step_check t1 _ h2 (h3.trans hrun)
  have hw := wrap64_of_inRange _ hfit
  have hyes : now - advance t.period_ns_ next_wakeup > t.period_ns_ →
      iteration t.period_ns_ next_wakeup now = now := by
    intro hov
    unfold iteration resync overrun
    rw [hw, if_pos (by simp; omega)]
  have hno : now - advance t.period_ns_ next_wakeup ≤ t.period_ns_ →
      iteration t.period_ns_ next_wakeup now = advance t.period_ns_ next_wakeup := by
    intro hov
    unfold iteration resync overrun
    rw [hw, if_neg (by simp; omega)]
  refine ⟨by simp [sleepTarget, hbody], t1, t2, h1, k1, ?_, ?_, ?_⟩
  · intro hov
    rw [hyes hov] at h2
    exact h2
  · intro hov
    rw [hno hov] at h2 k5
    refine ⟨h2, ?_⟩
    rw [k5, h4]
    show some (wrap64 (advance t.period_ns_ next_wakeup + t.period_ns_)) = _
    rw [hw]
  · intro hov
    rw [hno (by omega)] at h2
    exact h2

/-- Witness of C8 amended: the second pass of the 10 Hz timer targets 200000000; a wakeup
exactly one period late, at 300000000, does not resynchronise, and the third pass targets
300000000. -/
theorem overrun_threshold_witness :
    inRange64 (advance tenHzSecondPass.period_ns_ 100000000 + tenHzSecondPass.period_ns_) =
      true ∧
    ∃ t1 t2 : Timer ℕ, step tenHzSecondPass (Event.iterate 300000000) = some t1 ∧
      step t1 Event.check = some t2 ∧ t1.timer_thread_ = Thread.test 200000000 ∧
      sleepTarget t2 = some 300000000 := by
  refine ⟨by decide, ?_⟩
  obtain ⟨t1, t2, h1, h2, -, h4, -⟩ :=
    (overrun_threshold tenHzSecondPass 100000000 300000000 rfl rfl (by decide)).2
  exact ⟨t1, t2, h1, h2, (h4 (by decide)).1, (h4 (by decide)).2⟩

/-- A rational within one half of an integer rounds to that integer. -/
theorem roundHalfEven_near (m : ℤ) (x : ℚ) (h1 : (m : ℚ) - 1 / 2 < x)
    (h2 : x < (m : ℚ) + 1 / 2) : roundHalfEven x = m := by
  unfold roundHalfEven
  simp only
  rcases le_or_lt (m : ℚ) x with hx | hx
  · have hf : ⌊x⌋ = m := by
      rw [Int.floor_eq_iff]
      exact ⟨hx, by linarith⟩
    rw [hf, if_pos (by linarith)]
  · have hf : ⌊x⌋ = m - 1 := by
      rw [Int.floor_eq_iff]
      push_cast
      exact ⟨by linarith, by linarith⟩
    rw [hf]
    push_cast
    rw [if_neg (by linarith), if_pos (by linarith)]
    ring

/-- Rounding a positive rational of the binade `e ≥ -1022` that lies within half a spacing of
the multiple `m` of the spacing yields that multiple. -/
theorem roundToDouble_near (x : ℚ) (e m : ℤ) (he : -1022 ≤ e) (h1 : (2 : ℚ) ^ e ≤ x)
    (h2 : x < (2 : ℚ) ^ (e + 1)) (hm1 : (m : ℚ) - 1 / 2 < x / (2 : ℚ) ^ (e - 52))
    (hm2 : x / (2 : ℚ) ^ (e - 52) < (m : ℚ) + 1 / 2)
    (hmax : |(m : ℚ) * (2 : ℚ) ^ (e - 52)| < (2 : ℚ) ^ (1024 : ℕ)) :
    roundToDouble x = Double.fin ((m : ℚ) * (2 : ℚ) ^ (e - 52)) := by
  have hx : 0 < x := lt_of_lt_of_le (zpow_pos (by norm_num) e) h1
  have hb : binade x = e := by
    unfold binade
    rw [abs_of_pos hx, log_two_eq x e h1 h2]
    exact max_eq_left he
  have hu : ulp x = (2 : ℚ) ^ (e - 52) := by
    unfold ulp
    rw [hb]
  unfold roundToDouble
  simp only [hu, roundHalfEven_near m _ hm1 hm2]
  rw [if_neg (not_le.mpr hmax)]

/-- The frequency `0x1.dcd6500000001p-34` Hz is a `double`. -/
theorem representable_longest :
    Double.representable (Double.fin (8388608000000001 / 77371252455336267181195264)) :=
  roundToDouble_exact _ (-34) 8388608000000001 (by norm_num) (by norm_num)
    (by norm_num) (by norm_num) (by norm_num)

/-- The constructor at `0x1.dcd6500000001p-34` Hz: the quotient rounds to `2 ^ 63 - 1024`,
which fits. -/
theorem construct_longestTimer (oor : ℤ) :
    construct oor 0 (Double.fin (8388608000000001 / 77371252455336267181195264)) (some tick) =
      Except.ok longestTimer := by
  have h : roundToDouble (1000000000 / (8388608000000001 / 77371252455336267181195264)) =
      Double.fin (((9007199254740991 : ℤ) : ℚ) * (2 : ℚ) ^ ((62 : ℤ) - 52)) :=
    roundToDouble_near _ 62 9007199254740991 (by norm_num) (by norm_num) (by norm_num)
      (by norm_num) (by norm_num) (by norm_num [abs_of_pos])
  have hp : periodOf oor (Double.fin (8388608000000001 / 77371252455336267181195264)) =
      9223372036854774784 := by
    unfold periodOf
    rw [div_e9_fin _ (by norm_num), h,
      toLongLong_of_nonneg oor _ (by norm_num) (by norm_num)]
    norm_num
  rw [construct_ok oor (0 : ℕ) _ (some tick) (by simp [Double.le, Double.zero]) rfl, hp]
  rfl

/-- With a steady clock and a wakeup that is not early, a pass that does not resynchronise
has formed its sleep target without overflow: had the sum of line 88 wrapped, the sum of
line 104 would lie below the instant the pass started from, and the pass would have
resynchronised. -/
theorem advance_exact_of_noResync (period next_wakeup prev now : ℤ)
    (hP : inRange64 period = true) (hnw : inRange64 next_wakeup = true)
    (hprev : next_wakeup ≤ prev) (h1 : prev ≤ now) (h2 : advance period next_wakeup ≤ now)
    (h3 : overrun period (advance period next_wakeup) now = false) :
    advance period next_wakeup = next_wakeup + period := by
  rw [inRange64_iff] at hP hnw
  simp only [overrun, decide_eq_false_iff_not, not_lt] at h3
  unfold advance wrap64 at *
  omega

/-- Passes without resynchronisation advance `next_wakeup` by one period each, and sleep until
the instants so obtained. -/
theorem run_rounds (t : Timer σ) (prev next_wakeup : ℤ) (nows : List ℤ)
    (htest : t.timer_thread_ = Thread.test next_wakeup) (hrun : t.running_ = true)
    (hP : inRange64 t.period_ns_ = true) (hnw : inRange64 next_wakeup = true)
    (hprev : next_wakeup ≤ prev)
    (hclock : noEarlyWakeup t.period_ns_ prev next_wakeup nows = true)
    (hno : noResync t.period_ns_ next_wakeup nows = true) :
    ∃ t1 : Timer σ, run t (rounds nows) = some t1 ∧
      t1.timer_thread_ = Thread.test (next_wakeup + (nows.length : ℤ) * t.period_ns_) ∧
      t1.running_ = true ∧ t1.period_ns_ = t.period_ns_ ∧
      sleepTargets t (rounds nows) =
        (List.range nows.length).map
          (fun i : ℕ => next_wakeup + ((i : ℤ) + 1) * t.period_ns_) ∧
      inRange64 (next_wakeup + (nows.length : ℤ) * t.period_ns_) = true := by
  induction nows generalizing t prev next_wakeup with
  | nil => exact ⟨t, rfl, by simpa using htest, hrun, rfl, rfl, by simpa using hnw⟩
  | cons now nows ih =>
    simp only [noResync, Bool.and_eq_true, Bool.not_eq_true'] at hno
    simp only [noEarlyWakeup, Bool.and_eq_true, decide_eq_true_eq] at hclock
    obtain ⟨⟨c1, c2⟩, c3⟩ := hclock
    have hadv := advance_exact_of_noResync t.period_ns_ next_wakeup prev now hP hnw hprev c1 c2
      hno.1
    obtain ⟨t1, a1, a2, a3, a4, a5⟩ := step_check t next_wakeup htest hrun
    obtain ⟨t2, b1, b2, b3, b4⟩ := step_iterate t1 next_wakeup now a2
    have hit : iteration t1.period_ns_ next_wakeup now = advance t.period_ns_ next_wakeup := by
      unfold iteration resync
      rw [a4, hno.1]
      simp
    rw [hit] at b2
    have hnw2 : inRange64 (advance t.period_ns_ next_wakeup) = true := inRange64_wrap64 _
    obtain ⟨t3, d1, d2, d3, d4, d5, d6⟩ := ih t2 now (advance t.period_ns_ next_wakeup) b2
      (b3.trans a3) (by rw [b4, a4]; exact hP) hnw2 c2 (by rw [b4, a4]; exact c3)
      (by rw [b4, a4]; exact hno.2)
    rw [b4, a4] at d2 d5 d6
    have hlast : inRange64
        (next_wakeup + ((now :: nows).length : ℤ) * t.period_ns_) = true := by
      rw [← d6, hadv]
      congr 1
      simp only [List.length_cons]
      push_cast
      ring
    refine ⟨t3, ?_, ?_, d3, d4.trans (b4.trans a4), ?_, hlast⟩
    · simp [rounds, run, a1, b1, d1]
    · rw [d2, hadv]
      simp only [List.length_cons]
      push_cast
      ring_nf
    · simp only [rounds, sleepTargets, a1, b1, a5, d5, hadv, List.length_cons,
        List.range_succ_eq_map, List.map_cons, List.map_map, Option.toList, List.nil_append,
        List.cons_append]
      congr 1
      · push_cast
        ring
      · apply List.map_congr_left
        intro i _
        simp only [Function.comp]
        push_cast
        ring

/-- Passes without resynchronisation whose last sleep target fits in 64 bits advance
`next_wakeup` by one period each, and sleep until the instants so obtained, whatever the clock
readings are. -/
theorem run_rounds_fit (t : Timer σ) (next_wakeup : ℤ) (nows : List ℤ)
    (htest : t.timer_thread_ = Thread.test next_wakeup) (hrun : t.running_ = true)
    (hnw : inRange64 next_wakeup = true)
    (hfit : inRange64 (next_wakeup + (nows.length : ℤ) * t.period_ns_) = true)
    (hno : noResync t.period_ns_ next_wakeup nows = true) :
    ∃ t1 : Timer σ, run t (rounds nows) = some t1 ∧
      t1.timer_thread_ = Thread.test (next_wakeup + (nows.length : ℤ) * t.period_ns_) ∧
      sleepTargets t (rounds nows) =
        (List.range nows.length).map
          (fun i : ℕ => next_wakeup + ((i : ℤ) + 1) * t.period_ns_) := by
  induction nows generalizing t next_wakeup with
  | nil => exact ⟨t, rfl, by simpa using htest, rfl⟩
  | cons now nows ih =>
    simp only [noResync, Bool.and_eq_true, Bool.not_eq_true'] at hno
    have hmid : inRange64 (next_wakeup + t.period_ns_) = true := by
      rw [inRange64_iff] at hnw hfit ⊢
      simp only [List.length_cons] at hfit
      push_cast at hfit
      rcases le_total 0 t.period_ns_ with hp | hp
      · have := mul_nonneg (Int.ofNat_nonneg nows.length) hp
        constructor <;> nlinarith
      · have := mul_nonpos_of_nonneg_of_nonpos (Int.ofNat_nonneg nows.length) hp
        constructor <;> nlinarith
    have hadv : advance t.period_ns_ next_wakeup = next_wakeup + t.period_ns_ :=
      wrap64_of_inRange _ hmid
    obtain ⟨t1, a1, a2, a3, a4, a5⟩ := step_check t next_wakeup htest hrun
    obtain ⟨t2, b1, b2, b3, b4⟩ := step_iterate t1 next_wakeup now a2
    have hit : iteration t1.period_ns_ next_wakeup now = advance t.period_ns_ next_wakeup := by
      unfold iteration resync
      rw [a4, hno.1]
      simp
    rw [hit] at b2
    have hfit2 : inRange64
        (advance t.period_ns_ next_wakeup + (nows.length : ℤ) * t2.period_ns_) = true := by
      rw [b4, a4, hadv]
      simp only [List.length_cons] at hfit
      push_cast at hfit
      rw [← hfit]
      congr 1
      ring
    obtain ⟨t3, d1, d2, d5⟩ := ih t2 (advance t.period_ns_ next_wakeup) b2
      (b3.trans a3) (inRange64_wrap64 _) hfit2 (by rw [b4, a4]; exact hno.2)
    rw [b4, a4] at d2 d5
    refine ⟨t3, ?_, ?_, ?_⟩
    · simp [rounds, run, a1, b1, d1]
    · rw [d2, hadv]
      simp only [List.length_cons]
      push_cast
      ring_nf
    · simp only [rounds, sleepTargets, a1, b1, a5, d5, hadv, List.length_cons,
        List.range_succ_eq_map, List.map_cons, List.map_map, Option.toList, List.nil_append,
        List.cons_append]
      congr 1
      · push_cast
        ring
      · apply List.map_congr_left
        intro i _
        simp only [Function.comp]
        push_cast
        ring

/-- C9, as stated, fails. The frequency `0x1.dcd6500000001p-34` Hz is a `double` and is accepted,
with the period `P = 2 ^ 63 - 1024` ns. With the loop entered at instant `start = 5000`, line 88
does not advance `next_wakeup` by one period: the 64-bit sum wraps, and the first pass sleeps
until `-9223372036854771832` instead of `start + P = 9223372036854779784`. (The sum of line 104
then lies below the instant of entry, so the pass resynchronises at its steady-clock
reading, here 5001.) -/
theorem first_target_wraps :
    Double.representable (Double.fin (8388608000000001 / 77371252455336267181195264)) ∧
    construct 0 0 (Double.fin (8388608000000001 / 77371252455336267181195264)) (some tick) =
      Except.ok longestTimer ∧
    (run longestTimer [Event.enter 5000, Event.check]).map
      (fun t => (t.timer_thread_, sleepTarget t)) =
      some (Thread.body 5000, some (-9223372036854771832)) ∧
    (5000 : ℤ) + longestTimer.period_ns_ = 9223372036854779784 ∧
    noResync longestTimer.period_ns_ 5000 [5001] = false ∧
    (run longestTimer [Event.enter 5000, Event.check, Event.iterate 5001]).map
      (fun t => t.timer_thread_) = some (Thread.test 5001) :=
  ⟨representable_longest, construct_longestTimer 0, by decide, by decide, by decide,
   by decide⟩

/-- C9, amended. The schedule is additive wherever the 64-bit sums fit. Line 88 advances
`next_wakeup` by exactly one period, whatever the clock reads, when the sum fits in 64 bits.
Let `start` be the clock reading of line 83 and let the thread make `k` passes, none of which
resynchronises, with the clock readings `nows`; let `start + k * period` fit in 64 bits, or
let the readings be those of a steady clock, each taken after its `sleep_until` has returned
(however late), in which case that sum fits by itself. Then after the passes
`next_wakeup = start + k * period`, and the instants the `k` passes slept until are
`start + period`, `start + 2 * period`, ..., `start + k * period`: the sleep target of pass `i`
is `start + i * period`. -/
theorem schedule_additive (t : Timer σ) (start : ℤ) (nows : List ℤ)
    (hentry : t.timer_thread_ = Thread.entry) (hrun : t.running_ = true)
    (hstart : inRange64 start = true) (hP : inRange64 t.period_ns_ = true)
    (hno : noResync t.period_ns_ start nows = true)
    (hfit : inRange64 (start + (nows.length : ℤ) * t.period_ns_) = true ∨
      noEarlyWakeup t.period_ns_ start start nows = true) :
    (∀ next_wakeup : ℤ, inRange64 (next_wakeup + t.period_ns_) = true →
      advance t.period_ns_ next_wakeup = next_wakeup + t.period_ns_) ∧
    inRange64 (start + (nows.length : ℤ) * t.period_ns_) = true ∧
    ∃ t1 : Timer σ, run t (Event.enter start :: rounds nows) = some t1 ∧
      t1.timer_thread_ = Thread.test (start + (nows.length : ℤ) * t.period_ns_) ∧
      sleepTargets t (Event.enter start :: rounds nows) =
        (List.range nows.length).map (fun i : ℕ => start + ((i : ℤ) + 1) * t.period_ns_) := by
  have e1 : step t (Event.enter start) = some { t with timer_thread_ := Thread.test start } := by
    simp [step, timerLoop, hentry]
  have key : ∃ t1 : Timer σ,
      run ({ t with timer_thread_ := Thread.test start } : Timer σ) (rounds nows) = some t1 ∧
      t1.timer_thread_ = Thread.test (start + (nows.length : ℤ) * t.period_ns_) ∧
      inRange64 (start + (nows.length : ℤ) * t.period_ns_) = true ∧
      sleepTargets ({ t with timer_thread_ := Thread.test start } : Timer σ) (rounds nows) =
        (List.range nows.length).map
          (fun i : ℕ => start + ((i : ℤ) + 1) * t.period_ns_) := by
    rcases hfit with hfit | hclock
    · obtain ⟨t1, a1, a2, a5⟩ :=
        run_rounds_fit { t with timer_thread_ := Thread.test start } start nows rfl hrun
          hstart hfit hno
      exact ⟨t1, a1, a2, hfit, a5⟩
    · obtain ⟨t1, a1, a2, -, -, a5, a6⟩ :=
        run_rounds { t with timer_thread_ := Thread.test start } start start nows rfl hrun hP
          hstart le_rfl hclock hno
      exact ⟨t1, a1, a2, a6, a5⟩
  obtain ⟨t1, a1, a2, a3, a5⟩ := key
  refine ⟨fun nw h => wrap64_of_inRange _ h, a3, t1, ?_, a2, ?_⟩
  · rw [run_cons, e1]
    exact a1
  · simp only [sleepTargets, e1, List.nil_append]
    exact a5

set_option maxRecDepth 100000 in
/-- Witness of C9 amended: at 10 Hz, with 30 passes each woken 5 ns late, the 30th pass sleeps
until `start + 3 s`. -/
theorem schedule_additive_witness :
    (noEarlyWakeup 100000000 0 0
        ((List.range 30).map (fun i : ℕ => ((i : ℤ) + 1) * 100000000 + 5)) = true ∧
      noResync 100000000 0
        ((List.range 30).map (fun i : ℕ => ((i : ℤ) + 1) * 100000000 + 5)) = true) ∧
    (∃ t1 : Timer ℕ,
      run tenHz (Event.enter 0 ::
        rounds ((List.range 30).map (fun i : ℕ => ((i : ℤ) + 1) * 100000000 + 5))) =
          some t1 ∧
      t1.timer_thread_ = Thread.test
        (0 + (((List.range 30).map
          (fun i : ℕ => ((i : ℤ) + 1) * 100000000 + 5)).length : ℤ) * tenHz.period_ns_) ∧
      sleepTargets tenHz (Event.enter 0 ::
          rounds ((List.range 30).map (fun i : ℕ => ((i : ℤ) + 1) * 100000000 + 5))) =
        (List.range
          ((List.range 30).map (fun i : ℕ => ((i : ℤ) + 1) * 100000000 + 5)).length).map
          (fun i : ℕ => 0 + ((i : ℤ) + 1) * tenHz.period_ns_)) ∧
    (sleepTargets tenHz (Event.enter 0 ::
        rounds ((List.range 30).map (fun i : ℕ => ((i : ℤ) + 1) * 100000000 + 5))))[29]? =
      some 3000000000 :=
  ⟨⟨by decide, by decide⟩,
   (schedule_additive tenHz 0
     ((List.range 30).map (fun i : ℕ => ((i : ℤ) + 1) * 100000000 + 5))
     rfl rfl (by decide) (by decide) (by decide) (Or.inr (by decide))).2.2,
   by decide⟩

/-- C10, as stated, fails. At `2 ^ -33` Hz (period `P = 8589934592000000000` ns, which is
`≥ 0`) the thread enters the loop at instant 0 and the first pass, woken at `now = P + 5`,
ends with `next_wakeup = now`. The sleep target of the next pass is the 64-bit sum
`now + P`, which wraps to `-1266874889709551611`: it is earlier than `now`. -/
theorem next_target_before_now :
    construct 0 0 (Double.fin (1 / 8589934592)) (some tick) = Except.ok slowTimer ∧
    (0 : ℤ) ≤ slowTimer.period_ns_ ∧
    (run slowTimer [Event.enter 0, Event.check, Event.iterate 8589934592000000005]).map
      (fun t => t.timer_thread_) = some (Thread.test 8589934592000000005) ∧
    (run slowTimer [Event.enter 0, Event.check, Event.iterate 8589934592000000005,
      Event.check]).map sleepTarget = some (some (-1266874889709551611)) ∧
    (-1266874889709551611 : ℤ) < 8589934592000000005 :=
  ⟨construct_slowTimer 0, by decide, by decide, by decide, by decide⟩

/-- C10, amended. Bounded lag. Let the period be a 64-bit count `≥ 0` and let a pass start
from the 64-bit count `next_wakeup` and read `now` after its sleep. At the end of the pass the
new `next_wakeup` is at least `now - period`, whether or not the pass resynchronised. If `now`
is not earlier than the `next_wakeup` the pass started from (which is a past clock reading or
an instant already slept until), the new `next_wakeup` is not below it. With the flag still
true, the sleep target of the next pass is not earlier than `now` provided the pass did not
resynchronise or the sum `now + period` fits in 64 bits. -/
theorem bounded_lag (t : Timer σ) (next_wakeup now : ℤ)
    (hbody : t.timer_thread_ = Thread.body next_wakeup) (hP : 0 ≤ t.period_ns_)
    (hPr : inRange64 t.period_ns_ = true) (hnw : inRange64 next_wakeup = true) :
    ∃ (t1 : Timer σ) (next_wakeup1 : ℤ), step t (Event.iterate now) = some t1 ∧
      t1.timer_thread_ = Thread.test next_wakeup1 ∧
      now - t.period_ns_ ≤ next_wakeup1 ∧
      (next_wakeup ≤ now → next_wakeup ≤ next_wakeup1) ∧
      (t.running_ = true → ∃ t2 : Timer σ, step t1 Event.check = some t2 ∧
        sleepTarget t2 = some (advance t.period_ns_ next_wakeup1) ∧
        (overrun t.period_ns_ (advance t.period_ns_ next_wakeup) now = false ∨
            inRange64 (now + t.period_ns_) = true →
          ∀ target, sleepTarget t2 = some target → now ≤ target)) := by
  obtain ⟨t1, h1, h2, h3, h4⟩ := step_iterate t next_wakeup now hbody
  rw [inRange64_iff] at hPr hnw
  have hb : now - t.period_ns_ ≤ iteration t.period_ns_ next_wakeup now ∧
      (next_wakeup ≤ now → next_wakeup ≤ iteration t.period_ns_ next_wakeup now) := by
    unfold iteration resync overrun advance wrap64
    split_ifs with hc
    · exact ⟨by omega, fun h => h⟩
    · simp only [gt_iff_lt, decide_eq_true_eq, not_lt] at hc
      constructor
      · omega
      · intro hle
        omega
  refine ⟨t1, _, h1, h2, hb.1, hb.2, ?_⟩
  intro hrun
  obtain ⟨t2, k1, -, -, -, k5⟩ := step_check t1 _ h2 (h3.trans hrun)
  rw [h4] at k5
  refine ⟨t2, k1, k5, ?_⟩
  intro hcase target htar
  rw [k5] at htar
  cases htar
  rcases hcase with hc | hc
  · have : iteration t.period_ns_ next_wakeup now = advance t.period_ns_ next_wakeup := by
      unfold iteration resync
      rw [hc]
      simp
    rw [this]
    simp only [overrun, decide_eq_false_iff_not, not_lt] at hc
    exact hc
  · rw [inRange64_iff] at hc
    unfold iteration resync overrun advance wrap64
    split_ifs with hc2
    · omega
    · simp only [gt_iff_lt, decide_eq_true_eq, not_lt] at hc2
      omega

/-- Witness of C10 amended: the second pass of the 10 Hz timer, woken at 500000000, three
periods late: it resynchronises to 500000000, and the next pass targets 600000000. -/
theorem bounded_lag_witness :
    ((0 : ℤ) ≤ tenHzSecondPass.period_ns_ ∧ inRange64 tenHzSecondPass.period_ns_ = true ∧
      inRange64 100000000 = true) ∧
    ∃ (t1 : Timer ℕ) (next_wakeup1 : ℤ),
      step tenHzSecondPass (Event.iterate 500000000) = some t1 ∧
      t1.timer_thread_ = Thread.test next_wakeup1 ∧
      500000000 - tenHzSecondPass.period_ns_ ≤ next_wakeup1 ∧
      ((100000000 : ℤ) ≤ 500000000 → 100000000 ≤ next_wakeup1) ∧
      (tenHzSecondPass.running_ = true → ∃ t2 : Timer ℕ, step t1 Event.check = some t2 ∧
        sleepTarget t2 = some (advance tenHzSecondPass.period_ns_ next_wakeup1) ∧
        (overrun tenHzSecondPass.period_ns_
              (advance tenHzSecondPass.period_ns_ 100000000) 500000000 = false ∨
            inRange64 (500000000 + tenHzSecondPass.period_ns_) = true →
          ∀ target, sleepTarget t2 = some target → 500000000 ≤ target)) :=
  ⟨⟨by decide, by decide, by decide⟩,
   bounded_lag tenHzSecondPass 100000000 500000000 rfl (by decide) (by decide) (by decide)⟩

end HighPrecisionTimer
